import Mathlib

/-!
Shallow embedding of `powerdns/utils.py` (django-powerdns-dnssec) and proofs
about its validators, reverse-IP computation, conflict checking, domain
resolution, recursive template formatting and dict diffing.

Strings are modelled as Lean `String`/`List Char`; machine integers do not
occur (all numbers are unbounded naturals in the source as well, Python).
Fallible operations (validators raising `ValidationError`, `ipaddress`
raising `ValueError`) are modelled with `Option`/`Except`.
-/

namespace PowerDNS

/-! ### Generic string helpers modelling Python primitives -/

/-- Python `sep.join(parts)` for a one-string separator. -/
def joinWith (sep : String) : List String → String
  | [] => ""
  | x :: [] => x
  | x :: y :: xs => x ++ sep ++ joinWith sep (y :: xs)

/-- Python `str.split(sep)` for a single-character separator: splits at every
occurrence of `sep`, keeping empty chunks (`"".split('.') == ['']`). -/
def pySplitChar (sep : Char) : List Char → List (List Char)
  | [] => [[]]
  | c :: rest =>
    if c = sep then [] :: pySplitChar sep rest
    else
      match pySplitChar sep rest with
      | [] => [[c]]
      | p :: ps => (c :: p) :: ps

/-- Python `sep.join(parts)` on character lists, single-character separator. -/
def joinParts (sep : Char) : List (List Char) → List Char
  | [] => []
  | p :: [] => p
  | p :: q :: ps => p ++ sep :: joinParts sep (q :: ps)

/-- Python whitespace characters recognised by no-argument `str.split()`
(ASCII range; the record contents validated here are ASCII). -/
def pySpace (c : Char) : Bool :=
  c = ' ' || c = '\t' || c = '\n' || c = '\r' || c = '\x0b' || c = '\x0c'

/-- Accumulator for `pythonSplit`: current partial word (reversed). -/
def pySplitAux : List Char → List Char → List (List Char)
  | [], acc => if acc.isEmpty then [] else [acc.reverse]
  | c :: rest, acc =>
    if pySpace c then
      if acc.isEmpty then pySplitAux rest []
      else acc.reverse :: pySplitAux rest []
    else pySplitAux rest (c :: acc)

/-- Python no-argument `str.split()`: splits on runs of whitespace and never
produces empty tokens. -/
def pythonSplit (l : List Char) : List (List Char) :=
  pySplitAux l []

/-! ### CPython `ipaddress` parsing, as called by `_reverse_ip`

`_reverse_ip` calls `ipaddress.ip_address(ip)`, which first tries
`IPv4Address(ip)` and then `IPv6Address(ip)`.  The parsers below translate
CPython's `_ip_int_from_string`/`_parse_octet`/`_parse_hextet`. -/

/-- Numeric value of a decimal digit string (Python `int(s)` on digits). -/
def octetValue (l : List Char) : Nat :=
  l.foldl (fun a c => 10 * a + (c.toNat - 48)) 0

/-- CPython `IPv4Address._parse_octet`: 1 to 3 decimal digits, value at most
255, and no leading zero in a multi-digit octet. -/
def strictOctet (l : List Char) : Bool :=
  !l.isEmpty && l.length ≤ 3 && l.all Char.isDigit &&
    (l.length == 1 || l.head? != some '0') && octetValue l ≤ 255

/-- CPython `IPv4Address` string parsing: exactly four dot-separated strict
octets.  Returns the four octet digit-strings.  Because parsing rejects
leading zeros, `str(IPv4Address(s))` re-renders exactly these octets. -/
def parseIPv4 (s : String) : Option (List (List Char)) :=
  let parts := pySplitChar '.' s.data
  if parts.length == 4 && parts.all strictOctet then some parts else none

/-- Hexadecimal digit test (charset of CPython `_parse_hextet`). -/
def isHexDigitChar (c : Char) : Bool :=
  c.isDigit || ('a' ≤ c && c ≤ 'f') || ('A' ≤ c && c ≤ 'F')

/-- Numeric value of a hex digit character. -/
def hexVal (c : Char) : Nat :=
  if c.isDigit then c.toNat - 48
  else if 'a' ≤ c then c.toNat - 87
  else c.toNat - 55

/-- Numeric value of a hex digit string (Python `int(s, 16)`). -/
def hextetValue (l : List Char) : Nat :=
  l.foldl (fun a c => 16 * a + hexVal c) 0

/-- CPython `IPv6Address._parse_hextet`: 1 to 4 hex digits. -/
def parseHextet (l : List Char) : Option Nat :=
  if !l.isEmpty && l.length ≤ 4 && l.all isHexDigitChar then some (hextetValue l)
  else none

/-- Parse every element, failing if any single parse fails (the hextet
loops of `_ip_int_from_string`, which propagate the first `ValueError`). -/
def mapOpt (f : α → Option β) : List α → Option (List β)
  | [] => some []
  | a :: l =>
    match f a, mapOpt f l with
    | some b, some bs => some (b :: bs)
    | _, _ => none

/-- CPython `IPv6Address._ip_int_from_string`, returning the eight 16-bit
hextet values.  Handles `::` compression (at most one, and a lone leading or
trailing `:` is only permitted as part of a `::`) and an embedded IPv4
address in the last part, which is replaced by its two hextets rendered in
lowercase hex (`'%x'`), exactly as CPython splices them into `parts`. -/
def parseIPv6 (s : String) : Option (List Nat) :=
  let parts0 := pySplitChar ':' s.data
  if parts0.length < 3 then none
  else
    match
      (if (parts0.getLastD []).contains '.' then
        match parseIPv4 (String.mk (parts0.getLastD [])) with
        | some [a, b, c, d] =>
          some (parts0.dropLast ++
            [Nat.toDigits 16 (256 * octetValue a + octetValue b),
             Nat.toDigits 16 (256 * octetValue c + octetValue d)])
        | _ => none
      else some parts0) with
    | none => none
    | some parts =>
      if parts.length > 9 then none
      else
        let interior := (parts.drop 1).dropLast
        if 2 ≤ (interior.filter List.isEmpty).length then none
        else if (interior.filter List.isEmpty).length = 1 then
          let skip := 1 + interior.findIdx List.isEmpty
          let lo0 := parts.length - skip - 1
          if (parts.headD []).isEmpty && skip ≠ 1 then none
          else if (parts.getLastD []).isEmpty && lo0 ≠ 1 then none
          else
            let hi := if (parts.headD []).isEmpty then 0 else skip
            let lo := if (parts.getLastD []).isEmpty then 0 else lo0
            if 8 ≤ hi + lo then none
            else
              match mapOpt parseHextet (parts.take hi),
                    mapOpt parseHextet (parts.drop (parts.length - lo)) with
              | some his, some los =>
                some (his ++ List.replicate (8 - (hi + lo)) 0 ++ los)
              | _, _ => none
        else
          if parts.length ≠ 8 then none
          else if (parts.headD []).isEmpty || (parts.getLastD []).isEmpty then none
          else mapOpt parseHextet parts

/-- Hex digit character for a value below 16 (lowercase, as in CPython). -/
def hexDigitChar (n : Nat) : Char :=
  if n < 10 then Char.ofNat (48 + n) else Char.ofNat (87 + n)

/-- The four hex digits of one hextet of `IPv6Address.exploded`. -/
def hextetExploded (n : Nat) : List Char :=
  [hexDigitChar (n / 4096 % 16), hexDigitChar (n / 256 % 16),
   hexDigitChar (n / 16 % 16), hexDigitChar (n % 16)]

/-- `IPv6Address.exploded`: the eight hextets zero-padded to four lowercase
hex digits each, joined with `:`. -/
def explodedIPv6 (gs : List Nat) : List Char :=
  joinParts ':' (gs.map hextetExploded)

/-! ### `_reverse_ip`, `to_reverse`, `reverse_pointer` -/

/-- `_reverse_ip(ip)`: parse with `ipaddress.ip_address` (IPv4 first, then
IPv6, else `ValueError`).  IPv4: `str(ip_obj).split('.')[::-1]`; under strict
parsing the canonical `str()` equals the accepted octets.  IPv6:
`ip_obj.exploded[::-1].replace(':', '')`.  The head becomes `last_byte`, the
tail plus the arpa suffix is dot-joined. -/
def _reverse_ip (ip : String) : Except String (String × String) :=
  match parseIPv4 ip with
  | some octs =>
    match octs.reverse with
    | lastB :: firstRev =>
      Except.ok (String.mk lastB,
        joinWith "." ((firstRev.map String.mk) ++ ["in-addr.arpa"]))
    | [] => Except.error "unreachable: IPv4 has four octets"
  | none =>
    match parseIPv6 ip with
    | some gs =>
      match (explodedIPv6 gs).reverse.filter (fun c => c ≠ ':') with
      | lastB :: firstRev =>
        Except.ok (String.mk [lastB],
          joinWith "." (firstRev.map (fun c => String.mk [c]) ++ ["ip6.arpa"]))
      | [] => Except.error "unreachable: IPv6 has 32 nibbles"
    | none =>
      Except.error (ip ++ " does not appear to be an IPv4 or IPv6 address")

/-- `to_reverse(ip)` simply delegates to `_reverse_ip`. -/
def to_reverse (ip : String) : Except String (String × String) :=
  _reverse_ip ip

/-- `reverse_pointer(ip) = '.'.join(_reverse_ip(ip))`. -/
def reverse_pointer (ip : String) : Except String String :=
  match _reverse_ip ip with
  | Except.ok (a, b) => Except.ok (a ++ "." ++ b)
  | Except.error e => Except.error e

/-! ### Regex validators

Django's `RegexValidator` calls `self.regex.search(value)` with the Python
`re` module.  The patterns at hand are anchored with `^...$`; in Python `re`,
`$` matches at the end of the string or just before a single trailing
newline, so every validator below also accepts its language followed by one
final `'\n'`.  The domain-name pattern is embedded as a Mathlib
`RegularExpression` so that its language can be characterised; the two
character-class patterns are embedded directly as charset checks. -/

/-- Python-`re` full match for `^P$`: either `P` matches the whole input, or
the input ends in a newline and `P` matches everything before it. -/
def reDollar (core : List Char → Bool) (l : List Char) : Bool :=
  core l || (if l.getLast? = some '\n' then core l.dropLast else false)

/-- The characters matched by `[A-Za-z0-9]`. -/
def alnumChars : List Char :=
  "ABCDEFGHIJKLMNOPQRSTUVWXYZabcdefghijklmnopqrstuvwxyz0123456789".data

/-- The characters matched by `[_A-Za-z0-9-]`. -/
def labelChars : List Char := '_' :: alnumChars ++ ['-']

/-- The characters matched by `[A-Za-z0-9.-]`. -/
def dnDotChars : List Char := alnumChars ++ ['.', '-']

/-- A character class `[...]` as a regular expression. -/
def charClass (cs : List Char) : RegularExpression Char :=
  cs.foldr (fun c acc => RegularExpression.char c + acc) 0

/-- `P+` (one or more). -/
def plusRE (P : RegularExpression Char) : RegularExpression Char := P * P.star

/-- The pattern `(\*\.)?([_A-Za-z0-9-]+\.)*([A-Za-z0-9])+` from
`validate_domain_name`. -/
def domainNameRE : RegularExpression Char :=
  (1 + RegularExpression.char '*' * RegularExpression.char '.') *
    (plusRE (charClass labelChars) * RegularExpression.char '.').star *
    plusRE (charClass alnumChars)

/-- `validate_domain_name = RegexValidator(r'^(\*\.)?([_A-Za-z0-9-]+\.)*([A-Za-z0-9])+$')`,
returning `true` when no `ValidationError` is raised. -/
def validate_domain_name (s : String) : Bool :=
  reDollar (fun l => domainNameRE.rmatch l) s.data

/-- The domain-name grammar as claim C5 states it: an optional leading
`*.`, zero or more nonempty labels over `[_A-Za-z0-9-]` each terminated by a
dot, and a final nonempty alphanumeric label with no trailing dot. -/
def domainGrammar (l : List Char) : Prop :=
  ∃ (w : Bool) (labs : List (List Char)) (tl : List Char),
    (∀ lab ∈ labs, lab ≠ [] ∧ ∀ c ∈ lab, c ∈ labelChars) ∧
    (tl ≠ [] ∧ ∀ c ∈ tl, c ∈ alnumChars) ∧
    l = (if w then ['*', '.'] else []) ++
      (labs.map (fun lab => lab ++ ['.'])).flatten ++ tl

/-- `validate_dn_optional_dot = RegexValidator('^[A-Za-z0-9.-]*$')`. -/
def validate_dn_optional_dot (l : List Char) : Bool :=
  reDollar (fun t => t.all (fun c => dnDotChars.contains c)) l

/-- `validate_time = RegexValidator('^[0-9]+$')`. -/
def validate_time (l : List Char) : Bool :=
  reDollar (fun t => !t.isEmpty && t.all Char.isDigit) l

/-! ### `validate_name_equal_to_content` and `validate_soa` -/

/-- `validate_name_equal_to_content(name, content)`. -/
def validate_name_equal_to_content (name content : String) : Except String Unit :=
  if name = content then
    Except.error "Cannot create record with the same name and content"
  else Except.ok ()

/-- The message `'Incorrect {}. Should be a valid domain name.'.format(field)`
used for every failing SOA field. -/
def soaMsg (field : String) : String :=
  "Incorrect " ++ field ++ ". Should be a valid domain name."

/-- `validate_soa(value)`: unpack `value.split()` into exactly seven fields
(else `ValidationError('Enter a valid SOA record')`), check name and e-mail
with `validate_dn_optional_dot` and the five numeric fields with
`validate_time`, raising the field-specific message at the first failure. -/
def validate_soa (value : String) : Except String Unit :=
  match pythonSplit value.data with
  | [name, email, sn, refresh, retry, expiry, nx] =>
    if !validate_dn_optional_dot name then Except.error (soaMsg "Domain name")
    else if !validate_dn_optional_dot email then Except.error (soaMsg "e-mail")
    else if !validate_time sn then Except.error (soaMsg "Serial")
    else if !validate_time refresh then Except.error (soaMsg "Refresh rate")
    else if !validate_time retry then Except.error (soaMsg "Retry rate")
    else if !validate_time expiry then Except.error (soaMsg "Expiry time")
    else if !validate_time nx then Except.error (soaMsg "Negative resp. time")
    else Except.ok ()
  | _ => Except.error "Enter a valid SOA record"

/-! ### The `RecordLike` mixin -/

/-- `DOMAIN_NAME_RECORDS = ('CNAME', 'MX', 'NAPTR', 'NS', 'PTR')`. -/
def DOMAIN_NAME_RECORDS : List String := ["CNAME", "MX", "NAPTR", "NS", "PTR"]

/-- A persisted `Record` row as seen by the conflict query: its primary key
(`id`), type, name and content. -/
structure Record where
  id : Nat
  type : String
  name : String
  content : String
deriving DecidableEq, Repr

/-- The mutable record-like object being cleaned: its (unprefixed) `name`,
`type` and `content` fields plus `get_record_pk()` (`None` for an unsaved
record). -/
structure RecordState where
  name : String
  type : String
  content : String
  pk : Option Nat
deriving DecidableEq, Repr

/-- `validate_ipv4_address` (Django): accepts what `ipaddress` IPv4 parsing
accepts. -/
def validate_ipv4_address (v : String) : Except String Unit :=
  if (parseIPv4 v).isSome then Except.ok ()
  else Except.error "Enter a valid IPv4 address."

/-- `validate_ipv6_address` (Django): accepts what `ipaddress` IPv6 parsing
accepts. -/
def validate_ipv6_address (v : String) : Except String Unit :=
  if (parseIPv6 v).isSome then Except.ok ()
  else Except.error "Enter a valid IPv6 address."

/-- `RecordLike.clean_content_field`: type-dependent validation of the
content field, reading the current (not yet case-normalised) field values. -/
def clean_content_field (type_ content name : String) : Except String Unit :=
  if type_ = "A" then validate_ipv4_address content
  else if type_ = "AAAA" then validate_ipv6_address content
  else if type_ = "SOA" then validate_soa content
  else if type_ ∈ DOMAIN_NAME_RECORDS then
    if !validate_domain_name content then Except.error "Enter a valid value."
    else validate_name_equal_to_content name content
  else Except.ok ()

/-- `check_unique(comment, **kwargs)` inside `validate_for_conflicts`:
filter `Record.objects` by `kwargs`, exclude the record's own pk when it has
one, and raise `comment.format(', '.join(str(record.id) ...))` when any
conflicting record remains. -/
def check_unique (records : List Record) (record_pk : Option Nat)
    (comment : String) (cond : Record → Bool) : Except String Unit :=
  let conflicting := records.filter cond
  let conflicting :=
    match record_pk with
    | some pk => conflicting.filter (fun (r : Record) => r.id ≠ pk)
    | none => conflicting
  if conflicting.isEmpty then Except.ok ()
  else
    Except.error (comment ++ joinWith ", " (conflicting.map (fun (r : Record) => Nat.repr r.id)))

/-- `RecordLike.validate_for_conflicts`, with the `Record.objects` collaborator
passed explicitly.  The second comment concatenates the adjacent source
strings `'... CNAME'` and `'record exists: '` without a space, as Python
does. -/
def validate_for_conflicts (records : List Record) (type_ name : String)
    (record_pk : Option Nat) : Except String Unit :=
  if type_ = "CNAME" then
    check_unique records record_pk
      "Cannot create CNAME record. Following conflicting records exist: "
      (fun (r : Record) => r.name == name)
  else
    check_unique records record_pk
      "Cannot create a record. Following conflicting CNAMErecord exists: "
      (fun (r : Record) => r.type == "CNAME" && r.name == name)

/-- Python `str.lower()` (the fields handled here are ASCII). -/
def pyLower (s : String) : String := String.mk (s.data.map Char.toLower)

/-- Python `str.upper()` (the fields handled here are ASCII). -/
def pyUpper (s : String) : String := String.mk (s.data.map Char.toUpper)

/-- `RecordLike.force_case`: lowercase the name and uppercase the type, each
only when the field is truthy (a non-empty string). -/
def force_case (r : RecordState) : RecordState :=
  { r with
    name := if r.name ≠ "" then pyLower r.name else r.name
    type := if r.type ≠ "" then pyUpper r.type else r.type }

/-- `RecordLike.clean`: `clean_content_field()`, then `force_case()`, then
`validate_for_conflicts()`.  Returns the mutated record state on success. -/
def clean (records : List Record) (r : RecordState) : Except String RecordState :=
  match clean_content_field r.type r.content r.name with
  | Except.error e => Except.error e
  | Except.ok _ =>
    let r' := force_case r
    match validate_for_conflicts records r'.type r'.name r'.pk with
    | Except.error e => Except.error e
    | Except.ok _ => Except.ok r'

/-- Modelled from the spec (claim C2's reading, for comparison with `clean`):
case normalisation is performed *before* any validation check runs, so the
content validator and the conflict checker both observe the normalised name
and type. -/
def cleanNormalizeFirst (records : List Record) (r : RecordState) :
    Except String RecordState :=
  let r' := force_case r
  match clean_content_field r'.type r'.content r'.name with
  | Except.error e => Except.error e
  | Except.ok _ =>
    match validate_for_conflicts records r'.type r'.name r'.pk with
    | Except.error e => Except.error e
    | Except.ok _ => Except.ok r'

/-! ### `flat_dict_diff` and `find_domain_for_record` -/

/-- `flat_dict_diff(old_dict, new_dict)`: dictionaries are association lists;
the result maps each key shared by both inputs to the pair
`('old': old value, 'new': new value)`.  (Python iterates the *set*
`set(old_dict) & set(new_dict)` in unspecified order; the embedding fixes
the old dict's order, which is immaterial for dictionary equality.) -/
def flat_dict_diff (old_dict new_dict : List (String × String)) :
    List (String × (String × String)) :=
  old_dict.filterMap fun kv =>
    (new_dict.lookup kv.1).map fun nv => (kv.1, (kv.2, nv))

/-- `find_domain_for_record(record_name)`, with the `Domain.objects`
collaborator passed explicitly as the list of registered domain names:
build all suffixes `'.'.join(chunks[i:])`, keep the domains among them, sort
by name length descending, and return the head (or `None`). -/
def find_domain_for_record (domains : List String) (record_name : String) :
    Option String :=
  let chunks := (pySplitChar '.' record_name.data).map String.mk
  let search_domains :=
    (List.range chunks.length).map fun i => joinWith "." (chunks.drop i)
  let matching_domains := domains.filter fun d => search_domains.contains d
  (matching_domains.mergeSort fun a b => b.length ≤ a.length).head?

/-! ### `format_recursive`

Templates are JSON-like values; `str.format(**arguments)` is modelled for
the `{key}` interpolation it is used with: `'{{'`/`'}}'` are escapes, a
`{key}` placeholder is replaced by the value bound to `key` (a `KeyError`
— the spec's `FormatError` — if absent), and a lone `'}'` or an unterminated
`'{'` is a format-string error, as in Python. -/

/-- A JSON-like template value. -/
inductive Value where
  | str (s : String)
  | num (n : Int)
  | bool (b : Bool)
  | null
  | list (l : List Value)
  | dict (l : List (String × Value))

/-- The brace character opening a placeholder. -/
def obr : Char := Char.ofNat 123

/-- The brace character closing a placeholder. -/
def cbr : Char := Char.ofNat 125

/-- `str.format(**args)` on the template's characters: `obr`/`cbr` are the
opening and closing braces, doubled braces are escapes, and `obr key cbr`
is replaced by the value bound to `key` in `args` (a `KeyError` if absent).
A stray closing brace or an unterminated placeholder is a `ValueError`, as
in Python. -/
def fmtStr (args : List (String × String)) : List Char → Except String (List Char)
  | [] => Except.ok []
  | c :: rest =>
    if c = obr then
      if rest.head? = some obr then
        match fmtStr args rest.tail with
        | Except.ok t => Except.ok (obr :: t)
        | Except.error e => Except.error e
      else if (rest.dropWhile (fun x => x ≠ cbr)).isEmpty then
        Except.error "Single opening brace encountered in format string"
      else
        match args.lookup (String.mk (rest.takeWhile (fun x => x ≠ cbr))) with
        | none =>
          Except.error ("KeyError: " ++ String.mk (rest.takeWhile (fun x => x ≠ cbr)))
        | some v =>
          match fmtStr args (rest.dropWhile (fun x => x ≠ cbr)).tail with
          | Except.ok t => Except.ok (v.data ++ t)
          | Except.error e => Except.error e
    else if c = cbr then
      if rest.head? = some cbr then
        match fmtStr args rest.tail with
        | Except.ok t => Except.ok (cbr :: t)
        | Except.error e => Except.error e
      else Except.error "Single closing brace encountered in format string"
    else
      match fmtStr args rest with
      | Except.ok t => Except.ok (c :: t)
      | Except.error e => Except.error e
termination_by l => l.length
decreasing_by
  all_goals simp_wf
  all_goals
    have h1 : (rest.dropWhile (fun x => x ≠ cbr)).length ≤ rest.length :=
      (List.dropWhile_sublist _).length_le
  all_goals
    have h2 : rest.tail.length = rest.length - 1 := List.length_tail rest
  all_goals
    have h3 : (rest.dropWhile (fun x => x ≠ cbr)).tail.length =
        (rest.dropWhile (fun x => x ≠ cbr)).length - 1 :=
      List.length_tail _
  all_goals
    have h4 : (rest.dropWhile (fun x => !decide (x = cbr))).length ≤ rest.length :=
      (List.dropWhile_sublist _).length_le
  all_goals omega

/-- The keys referenced by the placeholders of a format string, or `none`
when the format string itself is malformed (stray or unterminated brace). -/
def refKeys : List Char → Option (List String)
  | [] => some []
  | c :: rest =>
    if c = obr then
      if rest.head? = some obr then refKeys rest.tail
      else if (rest.dropWhile (fun x => x ≠ cbr)).isEmpty then none
      else
        match refKeys (rest.dropWhile (fun x => x ≠ cbr)).tail with
        | none => none
        | some ks => some (String.mk (rest.takeWhile (fun x => x ≠ cbr)) :: ks)
    else if c = cbr then
      if rest.head? = some cbr then refKeys rest.tail
      else none
    else refKeys rest
termination_by l => l.length
decreasing_by
  all_goals simp_wf
  all_goals
    have h1 : (rest.dropWhile (fun x => x ≠ cbr)).length ≤ rest.length :=
      (List.dropWhile_sublist _).length_le
  all_goals
    have h2 : rest.tail.length = rest.length - 1 := List.length_tail rest
  all_goals
    have h3 : (rest.dropWhile (fun x => x ≠ cbr)).tail.length =
        (rest.dropWhile (fun x => x ≠ cbr)).length - 1 :=
      List.length_tail _
  all_goals
    have h4 : (rest.dropWhile (fun x => !decide (x = cbr))).length ≤ rest.length :=
      (List.dropWhile_sublist _).length_le
  all_goals omega

mutual

/-- `format_recursive(template, arguments)`: keyed interpolation on strings,
recursion through dict values and list elements, identity elsewhere. -/
def format_recursive (args : List (String × String)) :
    Value → Except String Value
  | Value.str s =>
    match fmtStr args s.data with
    | Except.ok t => Except.ok (Value.str (String.mk t))
    | Except.error e => Except.error e
  | Value.dict kvs =>
    match formatDict args kvs with
    | Except.ok kvs' => Except.ok (Value.dict kvs')
    | Except.error e => Except.error e
  | Value.list l =>
    match formatValues args l with
    | Except.ok l' => Except.ok (Value.list l')
    | Except.error e => Except.error e
  | v => Except.ok v

/-- The dict comprehension `{k: format_recursive(v, arguments) ...}`. -/
def formatDict (args : List (String × String)) :
    List (String × Value) → Except String (List (String × Value))
  | [] => Except.ok []
  | (k, v) :: rest =>
    match format_recursive args v with
    | Except.error e => Except.error e
    | Except.ok v' =>
      match formatDict args rest with
      | Except.error e => Except.error e
      | Except.ok rest' => Except.ok ((k, v') :: rest')

/-- The list comprehension `[format_recursive(v, arguments) ...]`. -/
def formatValues (args : List (String × String)) :
    List Value → Except String (List Value)
  | [] => Except.ok []
  | v :: rest =>
    match format_recursive args v with
    | Except.error e => Except.error e
    | Except.ok v' =>
      match formatValues args rest with
      | Except.error e => Except.error e
      | Except.ok rest' => Except.ok (v' :: rest')

end

/-! ## Theorems -/

/-! ### Association-list helpers -/

theorem lookup_isSome_iff {β : Type} (l : List (String × β)) (k : String) :
    (l.lookup k).isSome ↔ k ∈ l.map Prod.fst := by
  induction l with
  | nil => simp [List.lookup]
  | cons kv rest ih =>
    rw [List.lookup]
    by_cases h : k = kv.1
    · simp [h]
    · have : (k == kv.1) = false := by simp [h]
      simp [this, ih, h]

/-- C10: `flat_dict_diff` keeps exactly the keys shared by both dicts, and
maps each to the pair of the old and the new value (even when both are
equal); keys present in only one input never appear. -/
theorem C10_flat_dict_diff (old_dict new_dict : List (String × String)) :
    (∀ k, k ∈ (flat_dict_diff old_dict new_dict).map Prod.fst ↔
      (k ∈ old_dict.map Prod.fst ∧ k ∈ new_dict.map Prod.fst)) ∧
    (∀ k, (flat_dict_diff old_dict new_dict).lookup k =
      match old_dict.lookup k, new_dict.lookup k with
      | some ov, some nv => some (ov, nv)
      | _, _ => none) := by
  constructor
  · intro k
    induction old_dict with
    | nil => simp [flat_dict_diff]
    | cons kv rest ih =>
      rw [flat_dict_diff, List.filterMap_cons]
      cases hnew : new_dict.lookup kv.1 with
      | none =>
        rw [flat_dict_diff] at ih
        simp only [Option.map_none']
        rw [ih]
        simp only [List.map_cons, List.mem_cons]
        constructor
        · rintro ⟨hk, hn⟩
          exact ⟨Or.inr hk, hn⟩
        · rintro ⟨hk | hk, hn⟩
          · exfalso
            rw [hk] at hn
            have := (lookup_isSome_iff new_dict kv.1).mpr hn
            rw [hnew] at this
            simp at this
          · exact ⟨hk, hn⟩
      | some nv =>
        rw [flat_dict_diff] at ih
        simp only [Option.map_some']
        simp only [List.map_cons, List.mem_cons]
        rw [ih]
        constructor
        · rintro (hk | ⟨hk, hn⟩)
          · refine ⟨Or.inl hk, ?_⟩
            rw [hk]
            exact (lookup_isSome_iff new_dict kv.1).mp (by simp [hnew])
          · exact ⟨Or.inr hk, hn⟩
        · rintro ⟨hk | hk, hn⟩
          · exact Or.inl hk
          · exact Or.inr ⟨hk, hn⟩
  · intro k
    induction old_dict with
    | nil => simp [flat_dict_diff, List.lookup]
    | cons kv rest ih =>
      rw [flat_dict_diff, List.filterMap_cons]
      rw [flat_dict_diff] at ih
      by_cases hk : k = kv.1
      · cases hnew : new_dict.lookup kv.1 with
        | none =>
          simp only [Option.map_none']
          rw [ih, List.lookup]
          have hbeq : (k == kv.1) = true := by simp [hk]
          rw [hbeq]
          rw [hk, hnew]
          cases rest.lookup kv.1 <;> rfl
        | some nv =>
          simp only [Option.map_some']
          rw [List.lookup, List.lookup]
          have hbeq : (k == kv.1) = true := by simp [hk]
          rw [hbeq, hk, hnew]
      · have hbeq : (k == kv.1) = false := by simp [hk]
        cases hnew : new_dict.lookup kv.1 with
        | none =>
          simp only [Option.map_none']
          rw [ih, List.lookup, hbeq]
        | some nv =>
          simp only [Option.map_some']
          rw [List.lookup, hbeq, List.lookup, hbeq, ih]

/-! ### C1: the conflict checker -/

theorem check_unique_filter (records : List Record) (pk : Option Nat)
    (c : String) (cond : Record → Bool) :
    check_unique records pk c cond =
      if (records.filter (fun r => cond r && some r.id != pk)).isEmpty then
        Except.ok ()
      else
        Except.error (c ++ joinWith ", "
          ((records.filter (fun r => cond r && some r.id != pk)).map
            (fun (r : Record) => Nat.repr r.id))) := by
  unfold check_unique
  cases pk with
  | none =>
    have hfil : records.filter cond =
        records.filter (fun r => cond r && some r.id != none) := by
      apply List.filter_congr
      intro r _
      simp
    simp only [← hfil]
  | some p =>
    have hfil : (records.filter cond).filter
          (fun (r : Record) => decide (r.id ≠ p)) =
        records.filter (fun r => cond r && some r.id != some p) := by
      rw [List.filter_filter]
      apply List.filter_congr
      intro r _
      by_cases h : r.id = p <;> simp [h]
    simp only [hfil]

/-- C1: `validate_for_conflicts` raises exactly when some existing record —
other than the one with the validated record's own identifier — has the same
name and (when the validated type is not CNAME) is itself a CNAME; the
raised message lists the identifiers of exactly the conflicting records. -/
theorem C1_validate_for_conflicts (records : List Record) (type_ name : String)
    (record_pk : Option Nat) :
    ((∃ e, validate_for_conflicts records type_ name record_pk = Except.error e) ↔
      ∃ r ∈ records, some r.id ≠ record_pk ∧ r.name = name ∧
        (type_ = "CNAME" ∨ r.type = "CNAME")) ∧
    (∀ e, validate_for_conflicts records type_ name record_pk = Except.error e →
      e = (if type_ = "CNAME" then
            "Cannot create CNAME record. Following conflicting records exist: "
          else
            "Cannot create a record. Following conflicting CNAMErecord exists: ") ++
        joinWith ", "
          ((records.filter (fun r => (r.name == name) &&
              (type_ == "CNAME" || r.type == "CNAME") && some r.id != record_pk)).map
            (fun (r : Record) => Nat.repr r.id))) := by
  have key : validate_for_conflicts records type_ name record_pk =
      if (records.filter (fun r => (r.name == name) &&
          (type_ == "CNAME" || r.type == "CNAME") && some r.id != record_pk)).isEmpty then
        Except.ok ()
      else
        Except.error
          ((if type_ = "CNAME" then
              "Cannot create CNAME record. Following conflicting records exist: "
            else
              "Cannot create a record. Following conflicting CNAMErecord exists: ") ++
            joinWith ", "
              ((records.filter (fun r => (r.name == name) &&
                  (type_ == "CNAME" || r.type == "CNAME") && some r.id != record_pk)).map
                (fun (r : Record) => Nat.repr r.id))) := by
    rw [validate_for_conflicts]
    by_cases ht : type_ = "CNAME"
    · have ht' : (type_ == "CNAME") = true := by simp [ht]
      have hfil : records.filter
            (fun r => (r.name == name) && some r.id != record_pk) =
          records.filter (fun r => (r.name == name) &&
            (type_ == "CNAME" || r.type == "CNAME") && some r.id != record_pk) := by
        apply List.filter_congr
        intro r _
        simp [ht']
      rw [if_pos ht, check_unique_filter, hfil, if_pos ht]
    · have ht' : (type_ == "CNAME") = false := by simp [ht]
      have hfil : records.filter
            (fun r => (r.type == "CNAME" && r.name == name) && some r.id != record_pk) =
          records.filter (fun r => (r.name == name) &&
            (type_ == "CNAME" || r.type == "CNAME") && some r.id != record_pk) := by
        apply List.filter_congr
        intro r _
        simp only [ht', Bool.false_or]
        rw [Bool.and_comm (r.type == "CNAME") (r.name == name)]
      rw [if_neg ht, check_unique_filter, hfil, if_neg ht]
  constructor
  · rw [key]
    by_cases hc :
        (records.filter (fun r => (r.name == name) &&
          (type_ == "CNAME" || r.type == "CNAME") && some r.id != record_pk)).isEmpty
    · rw [if_pos hc]
      constructor
      · rintro ⟨e, he⟩
        exact absurd he (by simp)
      · rintro ⟨r, hr, hpk, hname, htype⟩
        exfalso
        rw [List.isEmpty_iff, List.filter_eq_nil_iff] at hc
        refine hc r hr ?_
        simp only [Bool.and_eq_true, beq_iff_eq, bne_iff_ne, ne_eq]
        refine ⟨⟨hname, ?_⟩, by simpa using hpk⟩
        rcases htype with h | h <;> simp [h]
    · rw [if_neg hc]
      constructor
      · intro _
        rw [Bool.not_eq_true, List.isEmpty_eq_false_iff_exists_mem] at hc
        rcases hc with ⟨r, hr⟩
        rw [List.mem_filter] at hr
        refine ⟨r, hr.1, ?_⟩
        have h2 := hr.2
        simp only [Bool.and_eq_true, beq_iff_eq, bne_iff_ne, ne_eq] at h2
        refine ⟨by simpa using h2.2, h2.1.1, ?_⟩
        rcases h2 with ⟨⟨_, hor⟩, _⟩
        by_cases ht : type_ = "CNAME"
        · exact Or.inl ht
        · right
          have ht' : (type_ == "CNAME") = false := by simp [ht]
          rw [ht'] at hor
          simpa using hor
      · intro _
        exact ⟨_, rfl⟩
  · intro e he
    rw [key] at he
    by_cases hc :
        (records.filter (fun r => (r.name == name) &&
          (type_ == "CNAME" || r.type == "CNAME") && some r.id != record_pk)).isEmpty
    · rw [if_pos hc] at he
      exact absurd he (by simp)
    · rw [if_neg hc] at he
      exact ((Except.error.injEq _ _).mp he).symm

theorem C1_validate_for_conflicts_witness :
    "Cannot create a record. Following conflicting CNAMErecord exists: 7" =
      "Cannot create a record. Following conflicting CNAMErecord exists: " ++
        joinWith ", " [Nat.repr 7] := by
  have h := (C1_validate_for_conflicts [⟨7, "CNAME", "x", "c"⟩] "A" "x" none).2
    "Cannot create a record. Following conflicting CNAMErecord exists: 7" (by rfl)
  simpa using h

/-! ### C2: the order of case normalisation inside `clean` -/

/-- C2 counterexample: with the lowercase type `"a"` and a content that is
not a valid IPv4 address, `clean` succeeds — `clean_content_field` ran
before `force_case` and dispatched on the type `"a"`, not `"A"` — while the
normalise-before-validating reading of the spec must fail on the bad
content. -/
theorem C2_counterexample :
    clean [] ⟨"x", "a", "999.1.1.1", none⟩ =
      Except.ok ⟨"x", "A", "999.1.1.1", none⟩ ∧
    cleanNormalizeFirst [] ⟨"x", "a", "999.1.1.1", none⟩ =
      Except.error "Enter a valid IPv4 address." :=
  ⟨rfl, rfl⟩

/-- C2 (amended): `clean` runs `clean_content_field` on the original,
not-yet-normalised field values and aborts on its error; case normalisation
happens only afterwards, so it is `validate_for_conflicts` — not the content
validator — that always observes the lowercased name and uppercased type. -/
theorem C2_clean_case_order (records : List Record) (r : RecordState) :
    (∀ e, clean_content_field r.type r.content r.name = Except.error e →
      clean records r = Except.error e) ∧
    (clean_content_field r.type r.content r.name = Except.ok () →
      r.name ≠ "" → r.type ≠ "" →
      clean records r =
        match validate_for_conflicts records (pyUpper r.type) (pyLower r.name) r.pk with
        | Except.ok _ => Except.ok ⟨pyLower r.name, pyUpper r.type, r.content, r.pk⟩
        | Except.error e => Except.error e) := by
  constructor
  · intro e he
    unfold clean
    rw [he]
  · intro hok hn ht
    have hfc : force_case r = ⟨pyLower r.name, pyUpper r.type, r.content, r.pk⟩ := by
      simp only [force_case, if_pos hn, if_pos ht]
    unfold clean
    rw [hok, hfc]
    cases hv : validate_for_conflicts records (pyUpper r.type) (pyLower r.name) r.pk <;>
      simp [hv]

theorem C2_clean_case_order_witness :
    clean [⟨1, "CNAME", "x", "c"⟩] ⟨"X", "cname", "y.com", none⟩ =
      Except.error "Cannot create CNAME record. Following conflicting records exist: 1" := by
  have h := (C2_clean_case_order [⟨1, "CNAME", "x", "c"⟩] ⟨"X", "cname", "y.com", none⟩).2
    (by rfl) (by decide) (by decide)
  rw [h]
  rfl

/-! ### C7: type-dispatched content validation -/

/-- C7: for CNAME/MX/NAPTR/NS/PTR records, `clean_content_field` fails
exactly when the content fails the domain-name validator or the record name
equals the content; for types outside the eight dispatched ones it performs
no check and never raises. -/
theorem C7_clean_content_field (type_ content name : String) :
    (type_ ∈ DOMAIN_NAME_RECORDS →
      ((∃ e, clean_content_field type_ content name = Except.error e) ↔
        (validate_domain_name content = false ∨ name = content))) ∧
    (type_ ∉ ("A" :: "AAAA" :: "SOA" :: DOMAIN_NAME_RECORDS) →
      clean_content_field type_ content name = Except.ok ()) := by
  constructor
  · intro hmem
    have hA : type_ ≠ "A" := by
      rintro rfl; simp [DOMAIN_NAME_RECORDS] at hmem
    have hAAAA : type_ ≠ "AAAA" := by
      rintro rfl; simp [DOMAIN_NAME_RECORDS] at hmem
    have hSOA : type_ ≠ "SOA" := by
      rintro rfl; simp [DOMAIN_NAME_RECORDS] at hmem
    unfold clean_content_field
    rw [if_neg hA, if_neg hAAAA, if_neg hSOA, if_pos hmem]
    by_cases hv : validate_domain_name content = true
    · rw [hv]
      unfold validate_name_equal_to_content
      by_cases he : name = content
      · rw [if_pos he]
        simp [he]
      · rw [if_neg he]
        simp [he, hv]
    · rw [Bool.not_eq_true] at hv
      rw [hv]
      simp [hv]
  · intro hnot
    have hA : type_ ≠ "A" := fun h => hnot (by simp [h])
    have hAAAA : type_ ≠ "AAAA" := fun h => hnot (by simp [h])
    have hSOA : type_ ≠ "SOA" := fun h => hnot (by simp [h])
    have hD : ¬type_ ∈ DOMAIN_NAME_RECORDS := fun h => hnot (by simp [h])
    unfold clean_content_field
    rw [if_neg hA, if_neg hAAAA, if_neg hSOA, if_neg hD]

theorem C7_clean_content_field_witness :
    ((∃ e, clean_content_field "MX" "x.com" "x.com" = Except.error e) ↔
      (validate_domain_name "x.com" = false ∨ "x.com" = "x.com")) ∧
    clean_content_field "TXT" "anything at all" "x" = Except.ok () :=
  ⟨(C7_clean_content_field "MX" "x.com" "x.com").1 (by decide),
   (C7_clean_content_field "TXT" "anything at all" "x").2 (by decide)⟩

/-! ### C6: the SOA validator -/

theorem pySplitAux_no_space : ∀ (l acc : List Char), (∀ c ∈ acc, pySpace c = false) →
    ∀ w ∈ pySplitAux l acc, ∀ c ∈ w, pySpace c = false := by
  intro l
  induction l with
  | nil =>
    intro acc hacc w hw c hc
    rw [pySplitAux] at hw
    by_cases h : acc.isEmpty
    · rw [if_pos h] at hw
      simp at hw
    · rw [if_neg h] at hw
      simp at hw
      subst hw
      exact hacc c (List.mem_reverse.mp hc)
  | cons a rest ih =>
    intro acc hacc w hw c hc
    rw [pySplitAux] at hw
    by_cases hsp : pySpace a = true
    · rw [if_pos hsp] at hw
      by_cases he : acc.isEmpty
      · rw [if_pos he] at hw
        exact ih [] (by simp) w hw c hc
      · rw [if_neg he] at hw
        rcases List.mem_cons.mp hw with h | h
        · subst h
          exact hacc c (List.mem_reverse.mp hc)
        · exact ih [] (by simp) w h c hc
    · rw [if_neg hsp] at hw
      refine ih (a :: acc) ?_ w hw c hc
      intro d hd
      rcases List.mem_cons.mp hd with h | h
      · subst h
        simpa using hsp
      · exact hacc d h

theorem pythonSplit_no_space {l : List Char} {w : List Char}
    (hw : w ∈ pythonSplit l) {c : Char} (hc : c ∈ w) : pySpace c = false :=
  pySplitAux_no_space l [] (by simp) w hw c hc

theorem reDollar_no_nl {core : List Char → Bool} {l : List Char}
    (h : ∀ c ∈ l, pySpace c = false) : reDollar core l = core l := by
  unfold reDollar
  have : l.getLast? ≠ some '\n' := by
    intro hg
    have := h _ (List.mem_of_getLast?_eq_some hg)
    simp [pySpace] at this
  rw [if_neg this]
  simp

theorem validate_dn_token {w : List Char} (h : ∀ c ∈ w, pySpace c = false) :
    validate_dn_optional_dot w = true ↔ ∀ c ∈ w, c ∈ dnDotChars := by
  unfold validate_dn_optional_dot
  rw [reDollar_no_nl h]
  simp only [List.all_eq_true]
  constructor
  · intro hall c hc
    exact List.elem_iff.mp (hall c hc)
  · intro hall c hc
    exact List.elem_iff.mpr (hall c hc)

theorem validate_time_token {w : List Char} (h : ∀ c ∈ w, pySpace c = false) :
    validate_time w = true ↔ (w ≠ [] ∧ ∀ c ∈ w, c.isDigit = true) := by
  unfold validate_time
  rw [reDollar_no_nl h]
  simp [List.all_eq_true, List.isEmpty_iff]

/-- C6: `validate_soa` rejects any value that does not whitespace-split into
exactly seven tokens; on a seven-token split, name and e-mail are checked
against the optionally-dotted charset and the five remaining tokens must be
non-empty digit strings, the first failing field aborting with the message
naming that field, and a fully passing record raises nothing. -/
theorem C6_validate_soa (value : String) :
    ((pythonSplit value.data).length ≠ 7 →
      validate_soa value = Except.error "Enter a valid SOA record") ∧
    (∀ dn em sn rf rt ex nx : List Char,
      pythonSplit value.data = [dn, em, sn, rf, rt, ex, nx] →
      ((validate_soa value = Except.ok ()) ↔
        ((∀ c ∈ dn, c ∈ dnDotChars) ∧ (∀ c ∈ em, c ∈ dnDotChars) ∧
         (sn ≠ [] ∧ ∀ c ∈ sn, c.isDigit = true) ∧
         (rf ≠ [] ∧ ∀ c ∈ rf, c.isDigit = true) ∧
         (rt ≠ [] ∧ ∀ c ∈ rt, c.isDigit = true) ∧
         (ex ≠ [] ∧ ∀ c ∈ ex, c.isDigit = true) ∧
         (nx ≠ [] ∧ ∀ c ∈ nx, c.isDigit = true))) ∧
      (¬(∀ c ∈ dn, c ∈ dnDotChars) →
        validate_soa value = Except.error (soaMsg "Domain name")) ∧
      ((∀ c ∈ dn, c ∈ dnDotChars) → ¬(∀ c ∈ em, c ∈ dnDotChars) →
        validate_soa value = Except.error (soaMsg "e-mail")) ∧
      ((∀ c ∈ dn, c ∈ dnDotChars) → (∀ c ∈ em, c ∈ dnDotChars) →
        ¬(sn ≠ [] ∧ ∀ c ∈ sn, c.isDigit = true) →
        validate_soa value = Except.error (soaMsg "Serial")) ∧
      ((∀ c ∈ dn, c ∈ dnDotChars) → (∀ c ∈ em, c ∈ dnDotChars) →
        (sn ≠ [] ∧ ∀ c ∈ sn, c.isDigit = true) →
        ¬(rf ≠ [] ∧ ∀ c ∈ rf, c.isDigit = true) →
        validate_soa value = Except.error (soaMsg "Refresh rate")) ∧
      ((∀ c ∈ dn, c ∈ dnDotChars) → (∀ c ∈ em, c ∈ dnDotChars) →
        (sn ≠ [] ∧ ∀ c ∈ sn, c.isDigit = true) →
        (rf ≠ [] ∧ ∀ c ∈ rf, c.isDigit = true) →
        ¬(rt ≠ [] ∧ ∀ c ∈ rt, c.isDigit = true) →
        validate_soa value = Except.error (soaMsg "Retry rate")) ∧
      ((∀ c ∈ dn, c ∈ dnDotChars) → (∀ c ∈ em, c ∈ dnDotChars) →
        (sn ≠ [] ∧ ∀ c ∈ sn, c.isDigit = true) →
        (rf ≠ [] ∧ ∀ c ∈ rf, c.isDigit = true) →
        (rt ≠ [] ∧ ∀ c ∈ rt, c.isDigit = true) →
        ¬(ex ≠ [] ∧ ∀ c ∈ ex, c.isDigit = true) →
        validate_soa value = Except.error (soaMsg "Expiry time")) ∧
      ((∀ c ∈ dn, c ∈ dnDotChars) → (∀ c ∈ em, c ∈ dnDotChars) →
        (sn ≠ [] ∧ ∀ c ∈ sn, c.isDigit = true) →
        (rf ≠ [] ∧ ∀ c ∈ rf, c.isDigit = true) →
        (rt ≠ [] ∧ ∀ c ∈ rt, c.isDigit = true) →
        (ex ≠ [] ∧ ∀ c ∈ ex, c.isDigit = true) →
        ¬(nx ≠ [] ∧ ∀ c ∈ nx, c.isDigit = true) →
        validate_soa value = Except.error (soaMsg "Negative resp. time"))) := by
  constructor
  · intro hlen
    unfold validate_soa
    generalize hg : pythonSplit value.data = l at hlen ⊢
    rcases l with _ | ⟨a, _ | ⟨b, _ | ⟨c, _ | ⟨d, _ | ⟨e, _ | ⟨f, _ | ⟨g, _ | ⟨h, t⟩⟩⟩⟩⟩⟩⟩⟩ <;>
      first
        | rfl
        | (exfalso; exact hlen (by simp))
  · intro dn em sn rf rt ex nx hsplit
    have hmem : ∀ w ∈ [dn, em, sn, rf, rt, ex, nx], ∀ c ∈ w, pySpace c = false := by
      intro w hw c hc
      have hw2 : w ∈ pythonSplit value.data := by
        rw [hsplit]
        exact hw
      exact pythonSplit_no_space hw2 hc
    have hdn := validate_dn_token (hmem dn (by simp))
    have hem := validate_dn_token (hmem em (by simp))
    have hsn := validate_time_token (hmem sn (by simp))
    have hrf := validate_time_token (hmem rf (by simp))
    have hrt := validate_time_token (hmem rt (by simp))
    have hex := validate_time_token (hmem ex (by simp))
    have hnx := validate_time_token (hmem nx (by simp))
    have hv : validate_soa value =
        (if !validate_dn_optional_dot dn then Except.error (soaMsg "Domain name")
         else if !validate_dn_optional_dot em then Except.error (soaMsg "e-mail")
         else if !validate_time sn then Except.error (soaMsg "Serial")
         else if !validate_time rf then Except.error (soaMsg "Refresh rate")
         else if !validate_time rt then Except.error (soaMsg "Retry rate")
         else if !validate_time ex then Except.error (soaMsg "Expiry time")
         else if !validate_time nx then Except.error (soaMsg "Negative resp. time")
         else Except.ok ()) := by
      unfold validate_soa
      rw [hsplit]
    have imp1 : ¬(∀ c ∈ dn, c ∈ dnDotChars) →
        validate_soa value = Except.error (soaMsg "Domain name") := by
      intro h1
      have b1 : validate_dn_optional_dot dn = false := by
        rw [← Bool.not_eq_true]
        exact fun hb => h1 (hdn.mp hb)
      rw [hv]
      simp [b1]
    have imp2 : (∀ c ∈ dn, c ∈ dnDotChars) → ¬(∀ c ∈ em, c ∈ dnDotChars) →
        validate_soa value = Except.error (soaMsg "e-mail") := by
      intro h1 h2
      have b1 : validate_dn_optional_dot dn = true := hdn.mpr h1
      have b2 : validate_dn_optional_dot em = false := by
        rw [← Bool.not_eq_true]
        exact fun hb => h2 (hem.mp hb)
      rw [hv]
      simp [b1, b2]
    have imp3 : (∀ c ∈ dn, c ∈ dnDotChars) → (∀ c ∈ em, c ∈ dnDotChars) →
        ¬(sn ≠ [] ∧ ∀ c ∈ sn, c.isDigit = true) →
        validate_soa value = Except.error (soaMsg "Serial") := by
      intro h1 h2 h3
      have b1 : validate_dn_optional_dot dn = true := hdn.mpr h1
      have b2 : validate_dn_optional_dot em = true := hem.mpr h2
      have b3 : validate_time sn = false := by
        rw [← Bool.not_eq_true]
        exact fun hb => h3 (hsn.mp hb)
      rw [hv]
      simp [b1, b2, b3]
    have imp4 : (∀ c ∈ dn, c ∈ dnDotChars) → (∀ c ∈ em, c ∈ dnDotChars) →
        (sn ≠ [] ∧ ∀ c ∈ sn, c.isDigit = true) →
        ¬(rf ≠ [] ∧ ∀ c ∈ rf, c.isDigit = true) →
        validate_soa value = Except.error (soaMsg "Refresh rate") := by
      intro h1 h2 h3 h4
      have b1 : validate_dn_optional_dot dn = true := hdn.mpr h1
      have b2 : validate_dn_optional_dot em = true := hem.mpr h2
      have b3 : validate_time sn = true := hsn.mpr h3
      have b4 : validate_time rf = false := by
        rw [← Bool.not_eq_true]
        exact fun hb => h4 (hrf.mp hb)
      rw [hv]
      simp [b1, b2, b3, b4]
    have imp5 : (∀ c ∈ dn, c ∈ dnDotChars) → (∀ c ∈ em, c ∈ dnDotChars) →
        (sn ≠ [] ∧ ∀ c ∈ sn, c.isDigit = true) →
        (rf ≠ [] ∧ ∀ c ∈ rf, c.isDigit = true) →
        ¬(rt ≠ [] ∧ ∀ c ∈ rt, c.isDigit = true) →
        validate_soa value = Except.error (soaMsg "Retry rate") := by
      intro h1 h2 h3 h4 h5
      have b1 : validate_dn_optional_dot dn = true := hdn.mpr h1
      have b2 : validate_dn_optional_dot em = true := hem.mpr h2
      have b3 : validate_time sn = true := hsn.mpr h3
      have b4 : validate_time rf = true := hrf.mpr h4
      have b5 : validate_time rt = false := by
        rw [← Bool.not_eq_true]
        exact fun hb => h5 (hrt.mp hb)
      rw [hv]
      simp [b1, b2, b3, b4, b5]
    have imp6 : (∀ c ∈ dn, c ∈ dnDotChars) → (∀ c ∈ em, c ∈ dnDotChars) →
        (sn ≠ [] ∧ ∀ c ∈ sn, c.isDigit = true) →
        (rf ≠ [] ∧ ∀ c ∈ rf, c.isDigit = true) →
        (rt ≠ [] ∧ ∀ c ∈ rt, c.isDigit = true) →
        ¬(ex ≠ [] ∧ ∀ c ∈ ex, c.isDigit = true) →
        validate_soa value = Except.error (soaMsg "Expiry time") := by
      intro h1 h2 h3 h4 h5 h6
      have b1 : validate_dn_optional_dot dn = true := hdn.mpr h1
      have b2 : validate_dn_optional_dot em = true := hem.mpr h2
      have b3 : validate_time sn = true := hsn.mpr h3
      have b4 : validate_time rf = true := hrf.mpr h4
      have b5 : validate_time rt = true := hrt.mpr h5
      have b6 : validate_time ex = false := by
        rw [← Bool.not_eq_true]
        exact fun hb => h6 (hex.mp hb)
      rw [hv]
      simp [b1, b2, b3, b4, b5, b6]
    have imp7 : (∀ c ∈ dn, c ∈ dnDotChars) → (∀ c ∈ em, c ∈ dnDotChars) →
        (sn ≠ [] ∧ ∀ c ∈ sn, c.isDigit = true) →
        (rf ≠ [] ∧ ∀ c ∈ rf, c.isDigit = true) →
        (rt ≠ [] ∧ ∀ c ∈ rt, c.isDigit = true) →
        (ex ≠ [] ∧ ∀ c ∈ ex, c.isDigit = true) →
        ¬(nx ≠ [] ∧ ∀ c ∈ nx, c.isDigit = true) →
        validate_soa value = Except.error (soaMsg "Negative resp. time") := by
      intro h1 h2 h3 h4 h5 h6 h7
      have b1 : validate_dn_optional_dot dn = true := hdn.mpr h1
      have b2 : validate_dn_optional_dot em = true := hem.mpr h2
      have b3 : validate_time sn = true := hsn.mpr h3
      have b4 : validate_time rf = true := hrf.mpr h4
      have b5 : validate_time rt = true := hrt.mpr h5
      have b6 : validate_time ex = true := hex.mpr h6
      have b7 : validate_time nx = false := by
        rw [← Bool.not_eq_true]
        exact fun hb => h7 (hnx.mp hb)
      rw [hv]
      simp [b1, b2, b3, b4, b5, b6, b7]
    refine ⟨⟨?_, ?_⟩, imp1, imp2, imp3, imp4, imp5, imp6, imp7⟩
    · intro hok
      by_cases p1 : (∀ c ∈ dn, c ∈ dnDotChars)
      · by_cases p2 : (∀ c ∈ em, c ∈ dnDotChars)
        · by_cases p3 : (sn ≠ [] ∧ ∀ c ∈ sn, c.isDigit = true)
          · by_cases p4 : (rf ≠ [] ∧ ∀ c ∈ rf, c.isDigit = true)
            · by_cases p5 : (rt ≠ [] ∧ ∀ c ∈ rt, c.isDigit = true)
              · by_cases p6 : (ex ≠ [] ∧ ∀ c ∈ ex, c.isDigit = true)
                · by_cases p7 : (nx ≠ [] ∧ ∀ c ∈ nx, c.isDigit = true)
                  · exact ⟨p1, p2, p3, p4, p5, p6, p7⟩
                  · rw [imp7 p1 p2 p3 p4 p5 p6 p7] at hok
                    simp at hok
                · rw [imp6 p1 p2 p3 p4 p5 p6] at hok
                  simp at hok
              · rw [imp5 p1 p2 p3 p4 p5] at hok
                simp at hok
            · rw [imp4 p1 p2 p3 p4] at hok
              simp at hok
          · rw [imp3 p1 p2 p3] at hok
            simp at hok
        · rw [imp2 p1 p2] at hok
          simp at hok
      · rw [imp1 p1] at hok
        simp at hok
    · intro hall
      have b1 : validate_dn_optional_dot dn = true := hdn.mpr hall.1
      have b2 : validate_dn_optional_dot em = true := hem.mpr hall.2.1
      have b3 : validate_time sn = true := hsn.mpr hall.2.2.1
      have b4 : validate_time rf = true := hrf.mpr hall.2.2.2.1
      have b5 : validate_time rt = true := hrt.mpr hall.2.2.2.2.1
      have b6 : validate_time ex = true := hex.mpr hall.2.2.2.2.2.1
      have b7 : validate_time nx = true := hnx.mpr hall.2.2.2.2.2.2
      rw [hv]
      simp [b1, b2, b3, b4, b5, b6, b7]

theorem C6_validate_soa_witness :
    validate_soa "example.com hostmaster.example.com 1 2 3 4 5" = Except.ok () := by
  have h := ((C6_validate_soa "example.com hostmaster.example.com 1 2 3 4 5").2
    "example.com".data "hostmaster.example.com".data "1".data "2".data "3".data
    "4".data "5".data (by decide)).1
  exact h.mpr (by decide)

/-! ### C8: the domain resolver -/

theorem head_mergeSort_byLen {l : List String} {d : String}
    (h : (l.mergeSort (fun a b => b.length ≤ a.length)).head? = some d) :
    d ∈ l ∧ ∀ x ∈ l, x.length ≤ d.length := by
  have hs := @List.sorted_mergeSort String (fun a b => decide (b.length ≤ a.length))
    (fun a b c h1 h2 => by
      simp only [decide_eq_true_eq] at *
      omega)
    (fun a b => by
      simp only [Bool.or_eq_true, decide_eq_true_eq]
      omega) l
  cases hms : l.mergeSort (fun a b => b.length ≤ a.length) with
  | nil =>
    rw [hms] at h
    simp at h
  | cons a t =>
    rw [hms] at h hs
    simp only [List.head?_cons, Option.some.injEq] at h
    have hmem : d ∈ l := by
      have ha : a ∈ l := by
        rw [← @List.mem_mergeSort String (fun a b => decide (b.length ≤ a.length)) a l, hms]
        simp
      rwa [h] at ha
    refine ⟨hmem, ?_⟩
    intro x hx
    have hx2 : x ∈ a :: t := by
      rw [← hms]
      exact (@List.mem_mergeSort String (fun a b => decide (b.length ≤ a.length)) x l).mpr hx
    rcases List.mem_cons.mp hx2 with rfl | hx3
    · rw [h]
    · have hp := (List.pairwise_cons.mp hs).1 x hx3
      rw [← h]
      simpa using hp

theorem mergeSort_byLen_head_none {l : List String}
    (h : (l.mergeSort (fun a b => b.length ≤ a.length)).head? = none) : l = [] := by
  rw [List.head?_eq_none_iff] at h
  have := List.mergeSort_perm l (fun a b => decide (b.length ≤ a.length))
  rw [h] at this
  exact (List.Perm.nil_eq this).symm

/-- C8: `find_domain_for_record` returns a registered domain whose name is
one of the suffixes of the record name obtained by dropping leading labels
(the full name included), of maximal length among all registered domains
matching such a suffix; it returns `none` exactly when no registered domain
matches any suffix. -/
theorem C8_find_domain_for_record (domains : List String) (record_name : String) :
    (∀ d, find_domain_for_record domains record_name = some d →
      d ∈ domains ∧
      (∃ i, i < (pySplitChar '.' record_name.data).length ∧
        d = joinWith "." (((pySplitChar '.' record_name.data).map String.mk).drop i)) ∧
      (∀ d2 ∈ domains,
        (∃ i, i < (pySplitChar '.' record_name.data).length ∧
          d2 = joinWith "." (((pySplitChar '.' record_name.data).map String.mk).drop i)) →
        d2.length ≤ d.length)) ∧
    (find_domain_for_record domains record_name = none ↔
      ∀ d ∈ domains, ¬(∃ i, i < (pySplitChar '.' record_name.data).length ∧
        d = joinWith "." (((pySplitChar '.' record_name.data).map String.mk).drop i))) := by
  have hsearch : ∀ d : String,
      (((List.range (((pySplitChar '.' record_name.data).map String.mk).length)).map
        (fun i => joinWith "." (((pySplitChar '.' record_name.data).map String.mk).drop i))).contains d) = true ↔
      (∃ i, i < (pySplitChar '.' record_name.data).length ∧
        d = joinWith "." (((pySplitChar '.' record_name.data).map String.mk).drop i)) := by
    intro d
    rw [List.contains_iff_exists_mem_beq]
    constructor
    · rintro ⟨x, hx, hbeq⟩
      rcases List.mem_map.mp hx with ⟨i, hi, hfi⟩
      refine ⟨i, by simpa using List.mem_range.mp hi, ?_⟩
      have hdx : d = x := beq_iff_eq.mp hbeq
      rw [← hfi] at hdx
      exact hdx
    · rintro ⟨i, hi, hd⟩
      refine ⟨d, ?_, by simp⟩
      apply List.mem_map.mpr
      exact ⟨i, List.mem_range.mpr (by simpa using hi), hd.symm⟩
  have hbody : find_domain_for_record domains record_name =
      ((domains.filter (fun d =>
        ((List.range (((pySplitChar '.' record_name.data).map String.mk).length)).map
          (fun i => joinWith "." (((pySplitChar '.' record_name.data).map String.mk).drop i))).contains d)).mergeSort
        (fun a b => b.length ≤ a.length)).head? := by
    rfl
  constructor
  · intro d hd
    rw [hbody] at hd
    have hh := head_mergeSort_byLen hd
    have hdmem := List.mem_filter.mp hh.1
    refine ⟨hdmem.1, (hsearch d).mp hdmem.2, ?_⟩
    intro d2 hd2mem hd2suf
    have : d2 ∈ domains.filter (fun d =>
        ((List.range (((pySplitChar '.' record_name.data).map String.mk).length)).map
          (fun i => joinWith "." (((pySplitChar '.' record_name.data).map String.mk).drop i))).contains d) :=
      List.mem_filter.mpr ⟨hd2mem, (hsearch d2).mpr hd2suf⟩
    exact hh.2 d2 this
  · rw [hbody]
    constructor
    · intro hnone d hdmem hsuf
      have hnil := mergeSort_byLen_head_none hnone
      rw [List.filter_eq_nil_iff] at hnil
      exact hnil d hdmem (by simpa using (hsearch d).mpr hsuf)
    · intro hall
      have : domains.filter (fun d =>
          ((List.range (((pySplitChar '.' record_name.data).map String.mk).length)).map
            (fun i => joinWith "." (((pySplitChar '.' record_name.data).map String.mk).drop i))).contains d) = [] := by
        rw [List.filter_eq_nil_iff]
        intro a ha hcon
        exact hall a ha ((hsearch a).mp (by simpa using hcon))
      rw [this, List.mergeSort_nil]
      rfl

unseal List.merge List.mergeSort in
theorem C8_find_domain_for_record_witness :
    "20.10.in-addr.arpa" ∈ ["10.in-addr.arpa", "20.10.in-addr.arpa"] ∧
    "10.in-addr.arpa".length ≤ "20.10.in-addr.arpa".length := by
  have h := (C8_find_domain_for_record ["10.in-addr.arpa", "20.10.in-addr.arpa"]
    "30.20.10.in-addr.arpa").1 "20.10.in-addr.arpa" rfl
  refine ⟨h.1, h.2.2 "10.in-addr.arpa" (by decide) ⟨2, by decide, by decide⟩⟩

/-! ### C9: the recursive template formatter -/

theorem fmtStr_refKeys_spec (args : List (String × String)) :
    ∀ (n : Nat) (l : List Char), l.length ≤ n → ∀ ks, refKeys l = some ks →
      ((∀ k ∈ ks, (args.lookup k).isSome = true) →
        ∃ t, fmtStr args l = Except.ok t) ∧
      (∀ k ∈ ks, args.lookup k = none → ∃ e, fmtStr args l = Except.error e) := by
  intro n
  induction n with
  | zero =>
    intro l hl ks hks
    have hnil : l = [] := List.length_eq_zero.mp (Nat.le_zero.mp hl)
    subst hnil
    simp only [refKeys] at hks
    simp only [fmtStr]
    constructor
    · intro _
      exact ⟨[], rfl⟩
    · intro k hk
      simp only [Option.some.injEq] at hks
      subst hks
      simp at hk
  | succ n ih =>
    intro l hl ks hks
    cases l with
    | nil =>
      simp only [refKeys] at hks
      simp only [fmtStr]
      constructor
      · intro _
        exact ⟨[], rfl⟩
      · intro k hk
        simp only [Option.some.injEq] at hks
        subst hks
        simp at hk
    | cons c rest =>
      rw [List.length_cons] at hl
      have hrest : rest.length ≤ n := by omega
      have htail : rest.tail.length ≤ n := by
        have := List.length_tail rest
        omega
      have hdwt : (rest.dropWhile (fun x => x ≠ cbr)).tail.length ≤ n := by
        have h1 : (rest.dropWhile (fun x => x ≠ cbr)).length ≤ rest.length :=
          (List.dropWhile_sublist _).length_le
        have h2 := List.length_tail (rest.dropWhile (fun x => x ≠ cbr))
        omega
      simp only [refKeys] at hks
      simp only [fmtStr]
      by_cases hc1 : c = obr
      · rw [if_pos hc1] at hks ⊢
        by_cases hh : rest.head? = some obr
        · rw [if_pos hh] at hks ⊢
          obtain ⟨hok, herr⟩ := ih rest.tail htail ks hks
          constructor
          · intro hall
            obtain ⟨t, ht⟩ := hok hall
            exact ⟨obr :: t, by rw [ht]⟩
          · intro k hk hnone
            obtain ⟨e, he⟩ := herr k hk hnone
            exact ⟨e, by rw [he]⟩
        · rw [if_neg hh] at hks ⊢
          by_cases hdw : (rest.dropWhile (fun x => x ≠ cbr)).isEmpty
          · rw [if_pos hdw] at hks
            exact absurd hks (by simp)
          · rw [if_neg hdw] at hks
            rw [if_neg hdw]
            cases hrk : refKeys (rest.dropWhile (fun x => x ≠ cbr)).tail with
            | none =>
              rw [hrk] at hks
              exact absurd hks (by simp)
            | some ks2 =>
              rw [hrk] at hks
              simp only [Option.some.injEq] at hks
              obtain ⟨hok, herr⟩ := ih _ hdwt ks2 hrk
              constructor
              · intro hall
                have hkey : (args.lookup
                    (String.mk (rest.takeWhile (fun x => x ≠ cbr)))).isSome = true := by
                  apply hall
                  rw [← hks]
                  simp
                obtain ⟨v, hv⟩ := Option.isSome_iff_exists.mp hkey
                rw [hv]
                obtain ⟨t, ht⟩ := hok (by
                  intro k hk
                  apply hall
                  rw [← hks]
                  simp [hk])
                exact ⟨v.data ++ t, by rw [ht]⟩
              · intro k hk hnone
                cases hlk : args.lookup
                    (String.mk (rest.takeWhile (fun x => x ≠ cbr))) with
                | none => exact ⟨_, rfl⟩
                | some v =>
                  rw [← hks] at hk
                  rcases List.mem_cons.mp hk with rfl | hk2
                  · rw [hlk] at hnone
                    exact absurd hnone (by simp)
                  · obtain ⟨e, he⟩ := herr k hk2 hnone
                    exact ⟨e, by rw [he]⟩
      · rw [if_neg hc1] at hks ⊢
        by_cases hc2 : c = cbr
        · rw [if_pos hc2] at hks ⊢
          by_cases hh : rest.head? = some cbr
          · rw [if_pos hh] at hks ⊢
            obtain ⟨hok, herr⟩ := ih rest.tail htail ks hks
            constructor
            · intro hall
              obtain ⟨t, ht⟩ := hok hall
              exact ⟨cbr :: t, by rw [ht]⟩
            · intro k hk hnone
              obtain ⟨e, he⟩ := herr k hk hnone
              exact ⟨e, by rw [he]⟩
          · rw [if_neg hh] at hks
            exact absurd hks (by simp)
        · rw [if_neg hc2] at hks ⊢
          obtain ⟨hok, herr⟩ := ih rest hrest ks hks
          constructor
          · intro hall
            obtain ⟨t, ht⟩ := hok hall
            exact ⟨c :: t, by rw [ht]⟩
          · intro k hk hnone
            obtain ⟨e, he⟩ := herr k hk hnone
            exact ⟨e, by rw [he]⟩

theorem formatDict_spec (args : List (String × String)) :
    ∀ (kvs : List (String × Value)) (kvs2 : List (String × Value)),
      formatDict args kvs = Except.ok kvs2 →
      kvs2.map Prod.fst = kvs.map Prod.fst ∧
      List.Forall₂ (fun v v2 => format_recursive args v = Except.ok v2)
        (kvs.map Prod.snd) (kvs2.map Prod.snd) := by
  intro kvs
  induction kvs with
  | nil =>
    intro kvs2 h
    simp only [formatDict] at h
    cases h
    simp
  | cons kv rest ih =>
    intro kvs2 h
    rw [formatDict] at h
    cases hfv : format_recursive args kv.2 with
    | error e =>
      rw [hfv] at h
      exact absurd h (by simp)
    | ok v2 =>
      rw [hfv] at h
      cases hfr : formatDict args rest with
      | error e =>
        rw [hfr] at h
        exact absurd h (by simp)
      | ok rest2 =>
        rw [hfr] at h
        simp only [Except.ok.injEq] at h
        obtain ⟨h1, h2⟩ := ih rest2 hfr
        rw [← h]
        constructor
        · simp [h1]
        · simp only [List.map_cons]
          exact List.Forall₂.cons hfv h2

theorem formatValues_spec (args : List (String × String)) :
    ∀ (l l2 : List Value),
      formatValues args l = Except.ok l2 →
      List.Forall₂ (fun v v2 => format_recursive args v = Except.ok v2) l l2 := by
  intro l
  induction l with
  | nil =>
    intro l2 h
    simp only [formatValues] at h
    cases h
    simp
  | cons v rest ih =>
    intro l2 h
    rw [formatValues] at h
    cases hfv : format_recursive args v with
    | error e =>
      rw [hfv] at h
      exact absurd h (by simp)
    | ok v2 =>
      rw [hfv] at h
      cases hfr : formatValues args rest with
      | error e =>
        rw [hfr] at h
        exact absurd h (by simp)
      | ok rest2 =>
        rw [hfr] at h
        simp only [Except.ok.injEq] at h
        rw [← h]
        exact List.Forall₂.cons hfv (ih rest2 hfr)

/-- C9: `format_recursive` preserves the template's shape: a string template
becomes the string with its placeholders substituted (raising a format error
when a referenced key is missing from the arguments), a dict keeps its keys
with every value recursively formatted, a list keeps its order with every
element recursively formatted, and numbers, booleans and null are returned
unchanged. -/
theorem C9_format_recursive :
    (∀ (args : List (String × String)) (s : String) (ks : List String),
      refKeys s.data = some ks →
      ((∀ k ∈ ks, (args.lookup k).isSome = true) →
        ∃ t, format_recursive args (Value.str s) = Except.ok (Value.str t)) ∧
      (∀ k ∈ ks, args.lookup k = none →
        ∃ e, format_recursive args (Value.str s) = Except.error e)) ∧
    (∀ args kvs out, format_recursive args (Value.dict kvs) = Except.ok out →
      ∃ kvs2, out = Value.dict kvs2 ∧ kvs2.map Prod.fst = kvs.map Prod.fst ∧
        List.Forall₂ (fun v v2 => format_recursive args v = Except.ok v2)
          (kvs.map Prod.snd) (kvs2.map Prod.snd)) ∧
    (∀ args l out, format_recursive args (Value.list l) = Except.ok out →
      ∃ l2, out = Value.list l2 ∧
        List.Forall₂ (fun v v2 => format_recursive args v = Except.ok v2) l l2) ∧
    (∀ (args : List (String × String)) (n : Int),
      format_recursive args (Value.num n) = Except.ok (Value.num n)) ∧
    (∀ (args : List (String × String)) (b : Bool),
      format_recursive args (Value.bool b) = Except.ok (Value.bool b)) ∧
    (∀ args, format_recursive args Value.null = Except.ok Value.null) := by
  refine ⟨?_, ?_, ?_, ?_, ?_, ?_⟩
  · intro args s ks hks
    obtain ⟨hok, herr⟩ := fmtStr_refKeys_spec args s.data.length s.data (Nat.le_refl _) ks hks
    constructor
    · intro hall
      obtain ⟨t, ht⟩ := hok hall
      refine ⟨String.mk t, ?_⟩
      rw [format_recursive, ht]
    · intro k hk hnone
      obtain ⟨e, he⟩ := herr k hk hnone
      refine ⟨e, ?_⟩
      rw [format_recursive, he]
  · intro args kvs out h
    rw [format_recursive] at h
    cases hd : formatDict args kvs with
    | error e =>
      rw [hd] at h
      exact absurd h (by simp)
    | ok kvs2 =>
      rw [hd] at h
      simp only [Except.ok.injEq] at h
      obtain ⟨h1, h2⟩ := formatDict_spec args kvs kvs2 hd
      exact ⟨kvs2, h.symm, h1, h2⟩
  · intro args l out h
    rw [format_recursive] at h
    cases hd : formatValues args l with
    | error e =>
      rw [hd] at h
      exact absurd h (by simp)
    | ok l2 =>
      rw [hd] at h
      simp only [Except.ok.injEq] at h
      exact ⟨l2, h.symm, formatValues_spec args l l2 hd⟩
  · intro args n
    simp [format_recursive]
  · intro args b
    simp [format_recursive]
  · intro args
    simp [format_recursive]

unseal fmtStr refKeys in
theorem C9_format_recursive_witness :
    (∃ t, format_recursive [("a", "A")] (Value.str "Value {a}") =
      Except.ok (Value.str t)) ∧
    (∃ e, format_recursive [] (Value.str "Value {a}") = Except.error e) :=
  ⟨(C9_format_recursive.1 [("a", "A")] "Value {a}" ["a"] rfl).1 (by decide),
   (C9_format_recursive.1 [] "Value {a}" ["a"] rfl).2 "a" (by decide) (by decide)⟩

/-! ### C3/C4: reverse-IP infrastructure -/

theorem pySplitChar_ne_nil (sep : Char) (l : List Char) : pySplitChar sep l ≠ [] := by
  cases l with
  | nil => simp [pySplitChar]
  | cons c rest =>
    rw [pySplitChar]
    by_cases h : c = sep
    · simp [h]
    · simp only [if_neg h]
      cases pySplitChar sep rest <;> simp

theorem joinParts_pySplitChar (sep : Char) : ∀ l, joinParts sep (pySplitChar sep l) = l := by
  intro l
  induction l with
  | nil => rfl
  | cons c rest ih =>
    rw [pySplitChar]
    by_cases h : c = sep
    · rw [if_pos h]
      cases hns : pySplitChar sep rest with
      | nil => exact absurd hns (pySplitChar_ne_nil sep rest)
      | cons p ps =>
        rw [hns] at ih
        rw [joinParts, h]
        simp only [List.nil_append]
        rw [ih]
    · rw [if_neg h]
      cases hns : pySplitChar sep rest with
      | nil => exact absurd hns (pySplitChar_ne_nil sep rest)
      | cons p ps =>
        rw [hns] at ih
        cases ps with
        | nil =>
          simp only [joinParts] at ih ⊢
          rw [ih]
        | cons q ps2 =>
          simp only [joinParts] at ih ⊢
          rw [List.cons_append, ih]

theorem pySplitChar_no_sep {sep : Char} : ∀ {l : List Char},
    (∀ c ∈ l, c ≠ sep) → pySplitChar sep l = [l] := by
  intro l
  induction l with
  | nil => intro _; rfl
  | cons c rest ih =>
    intro h
    rw [pySplitChar, if_neg (h c (by simp)), ih]
    intro d hd
    exact h d (by simp [hd])

theorem mem_pySplitChar {sep c : Char} : ∀ {l : List Char}, c ∈ l →
    c = sep ∨ ∃ p ∈ pySplitChar sep l, c ∈ p := by
  intro l
  induction l with
  | nil => intro h; simp at h
  | cons a rest ih =>
    intro h
    rw [pySplitChar]
    by_cases ha : a = sep
    · rw [if_pos ha]
      rcases List.mem_cons.mp h with rfl | h2
      · exact Or.inl ha
      · rcases ih h2 with h3 | ⟨p, hp, hcp⟩
        · exact Or.inl h3
        · exact Or.inr ⟨p, by simp [hp], hcp⟩
    · rw [if_neg ha]
      cases hns : pySplitChar sep rest with
      | nil => exact absurd hns (pySplitChar_ne_nil sep rest)
      | cons p ps =>
        rcases List.mem_cons.mp h with rfl | h2
        · exact Or.inr ⟨c :: p, by simp, by simp⟩
        · rcases ih h2 with h3 | ⟨q, hq, hcq⟩
          · exact Or.inl h3
          · rw [hns] at hq
            rcases List.mem_cons.mp hq with rfl | hq2
            · exact Or.inr ⟨a :: q, by simp, by simp [hcq]⟩
            · exact Or.inr ⟨q, by simp [hq2], hcq⟩

theorem mapOpt_length {α β : Type} {f : α → Option β} :
    ∀ {l : List α} {r : List β}, mapOpt f l = some r → r.length = l.length := by
  intro l
  induction l with
  | nil =>
    intro r h
    simp only [mapOpt, Option.some.injEq] at h
    rw [← h]
    rfl
  | cons a rest ih =>
    intro r h
    rw [mapOpt] at h
    cases hf : f a with
    | none => rw [hf] at h; simp at h
    | some b =>
      rw [hf] at h
      cases hm : mapOpt f rest with
      | none => rw [hm] at h; simp at h
      | some bs =>
        rw [hm] at h
        simp only [Option.some.injEq] at h
        rw [← h, List.length_cons, List.length_cons, ih hm]

theorem parseIPv6_length {s : String} {gs : List Nat}
    (h : parseIPv6 s = some gs) : gs.length = 8 := by
  rw [parseIPv6] at h
  by_cases h1 : (pySplitChar ':' s.data).length < 3
  · rw [if_pos h1] at h
    simp at h
  · rw [if_neg h1] at h
    set parts0 := pySplitChar ':' s.data with hparts0
    have hp0 : 3 ≤ parts0.length := by omega
    rcases hrepl : (if (parts0.getLastD []).contains '.' then
        match parseIPv4 (String.mk (parts0.getLastD [])) with
        | some [a, b, c, d] =>
          some (parts0.dropLast ++
            [Nat.toDigits 16 (256 * octetValue a + octetValue b),
             Nat.toDigits 16 (256 * octetValue c + octetValue d)])
        | _ => none
      else some parts0) with hnone | parts
    · rw [hrepl] at h
      simp at h
    · rw [hrepl] at h
      dsimp only [] at h
      have hplen : 3 ≤ parts.length := by
        by_cases hdot : (parts0.getLastD []).contains '.'
        · rw [if_pos hdot] at hrepl
          cases hp4 : parseIPv4 (String.mk (parts0.getLastD [])) with
          | none => rw [hp4] at hrepl; simp at hrepl
          | some os =>
            rw [hp4] at hrepl
            match os with
            | [] => simp at hrepl
            | [a] => simp at hrepl
            | [a, b] => simp at hrepl
            | [a, b, c] => simp at hrepl
            | [a, b, c, d] =>
              simp only [Option.some.injEq] at hrepl
              rw [← hrepl]
              simp only [List.length_append, List.length_dropLast]
              simp only [List.length_cons, List.length_nil]
              omega
            | a :: b :: c :: d :: e :: os2 => simp at hrepl
        · rw [if_neg hdot] at hrepl
          simp only [Option.some.injEq] at hrepl
          rw [← hrepl]
          exact hp0
      by_cases h2 : parts.length > 9
      · rw [if_pos h2] at h
        simp at h
      · rw [if_neg h2] at h
        by_cases h3 : 2 ≤ (((parts.drop 1).dropLast).filter List.isEmpty).length
        · rw [if_pos h3] at h
          simp at h
        · rw [if_neg h3] at h
          by_cases h4 : (((parts.drop 1).dropLast).filter List.isEmpty).length = 1
          · rw [if_pos h4] at h
            have hfind : ((parts.drop 1).dropLast).findIdx List.isEmpty <
                ((parts.drop 1).dropLast).length := by
              apply List.findIdx_lt_length_of_exists
              have : ((parts.drop 1).dropLast).filter List.isEmpty ≠ [] := by
                intro hc
                rw [hc] at h4
                simp at h4
              rcases List.exists_mem_of_ne_nil _ this with ⟨x, hx⟩
              exact ⟨x, (List.mem_filter.mp hx).1, (List.mem_filter.mp hx).2⟩
            have hintlen : ((parts.drop 1).dropLast).length = parts.length - 2 := by
              simp only [List.length_dropLast, List.length_drop]
              omega
            by_cases h5 : (parts.headD []).isEmpty = true ∧
                1 + ((parts.drop 1).dropLast).findIdx List.isEmpty ≠ 1
            · rw [if_pos (by simpa using h5)] at h
              simp at h
            · rw [if_neg (by simpa using h5)] at h
              by_cases h6 : (parts.getLastD []).isEmpty = true ∧
                  parts.length - (1 + ((parts.drop 1).dropLast).findIdx List.isEmpty) - 1 ≠ 1
              · rw [if_pos (by simpa using h6)] at h
                simp at h
              · rw [if_neg (by simpa using h6)] at h
                set hi := if (parts.headD []).isEmpty then 0
                  else 1 + ((parts.drop 1).dropLast).findIdx List.isEmpty with hhi
                set lo := if (parts.getLastD []).isEmpty then 0
                  else parts.length - (1 + ((parts.drop 1).dropLast).findIdx List.isEmpty) - 1
                  with hlo
                by_cases h7 : 8 ≤ hi + lo
                · rw [if_pos h7] at h
                  simp at h
                · rw [if_neg h7] at h
                  cases hmh : mapOpt parseHextet (parts.take hi) with
                  | none => rw [hmh] at h; simp at h
                  | some his =>
                    cases hml : mapOpt parseHextet (parts.drop (parts.length - lo)) with
                    | none => rw [hmh, hml] at h; simp at h
                    | some los =>
                      rw [hmh, hml] at h
                      simp only [Option.some.injEq] at h
                      have hhis : his.length = (parts.take hi).length := mapOpt_length hmh
                      have hlos : los.length =
                          (parts.drop (parts.length - lo)).length := mapOpt_length hml
                      have hhile : hi ≤ parts.length := by
                        rw [hhi]
                        by_cases hhd : (parts.headD []).isEmpty
                        · rw [if_pos hhd]
                          omega
                        · rw [if_neg hhd]
                          omega
                      have hlole : lo ≤ parts.length := by
                        rw [hlo]
                        by_cases hld : (parts.getLastD []).isEmpty
                        · rw [if_pos hld]
                          omega
                        · rw [if_neg hld]
                          omega
                      have ht : (parts.take hi).length = hi := by
                        rw [List.length_take]
                        omega
                      have hd : (parts.drop (parts.length - lo)).length = lo := by
                        rw [List.length_drop]
                        omega
                      rw [← h]
                      simp only [List.length_append, List.length_replicate]
                      rw [hhis, hlos, ht, hd]
                      omega
          · rw [if_neg h4] at h
            by_cases h8 : parts.length ≠ 8
            · rw [if_pos h8] at h
              simp at h
            · rw [if_neg h8] at h
              by_cases h9 : (parts.headD []).isEmpty = true ∨ (parts.getLastD []).isEmpty = true
              · rw [if_pos (by simpa using h9)] at h
                simp at h
              · rw [if_neg (by simpa using h9)] at h
                rw [mapOpt_length h]
                omega

theorem isDigit_ne_dot {c : Char} (h : c.isDigit = true) : c ≠ '.' := by
  rintro rfl
  exact absurd h (by decide)

theorem isDigit_ne_colon {c : Char} (h : c.isDigit = true) : c ≠ ':' := by
  rintro rfl
  exact absurd h (by decide)

theorem parseIPv4_parts {s : String} {octs : List (List Char)}
    (h : parseIPv4 s = some octs) :
    pySplitChar '.' s.data = octs ∧ octs.length = 4 ∧
      ∀ p ∈ octs, strictOctet p = true := by
  rw [parseIPv4] at h
  by_cases hc : ((pySplitChar '.' s.data).length == 4 &&
      (pySplitChar '.' s.data).all strictOctet) = true
  · rw [if_pos hc] at h
    simp only [Option.some.injEq] at h
    simp only [Bool.and_eq_true, beq_iff_eq, List.all_eq_true] at hc
    exact ⟨h, by rw [← h]; exact hc.1, by rw [← h]; exact hc.2⟩
  · rw [if_neg hc] at h
    exact absurd h (by simp)

theorem parseIPv4_digits {s : String} {octs : List (List Char)}
    (h : parseIPv4 s = some octs) : ∀ c ∈ s.data, c = '.' ∨ c.isDigit = true := by
  obtain ⟨hsplit, _, hall⟩ := parseIPv4_parts h
  intro c hc
  rcases @mem_pySplitChar '.' c s.data hc with h1 | ⟨p, hp, hcp⟩
  · exact Or.inl h1
  · rw [hsplit] at hp
    have := hall p hp
    rw [strictOctet] at this
    simp only [Bool.and_eq_true, List.all_eq_true] at this
    exact Or.inr (this.1.1.2 c hcp)

theorem parseIPv4_no_ipv6 {s : String} {octs : List (List Char)}
    (h : parseIPv4 s = some octs) : parseIPv6 s = none := by
  have hnc : pySplitChar ':' s.data = [s.data] := by
    apply pySplitChar_no_sep
    intro c hc
    rcases parseIPv4_digits h c hc with h1 | h1
    · rw [h1]
      decide
    · exact isDigit_ne_colon h1
  rw [parseIPv6, hnc]
  simp

theorem filter_joinParts_ne : ∀ {ps : List (List Char)},
    (∀ p ∈ ps, ∀ c ∈ p, c ≠ ':') →
    (joinParts ':' ps).filter (fun c => c ≠ ':') = ps.flatten := by
  intro ps
  induction ps with
  | nil => intro _; rfl
  | cons p qs ih =>
    intro h
    cases qs with
    | nil =>
      simp only [joinParts, List.flatten_cons, List.flatten_nil, List.append_nil]
      apply List.filter_eq_self.mpr
      intro c hc
      simpa using h p (by simp) c hc
    | cons q qs2 =>
      simp only [joinParts, List.flatten_cons]
      rw [List.filter_append]
      have h1 : p.filter (fun c => decide (c ≠ ':')) = p := by
        apply List.filter_eq_self.mpr
        intro c hc
        simpa using h p (by simp) c hc
      have h2 : (':' :: joinParts ':' (q :: qs2)).filter (fun c => decide (c ≠ ':')) =
          (joinParts ':' (q :: qs2)).filter (fun c => decide (c ≠ ':')) := by
        rw [List.filter_cons]
        simp
      rw [h1, h2]
      rw [ih (fun r hr => h r (by simp [hr]))]
      rw [List.flatten_cons]

theorem hexDigitChar_ne_colon {m : Nat} (h : m < 16) : hexDigitChar m ≠ ':' := by
  have hfin : ∀ x : Fin 16, hexDigitChar x.val ≠ ':' := by decide
  exact hfin ⟨m, h⟩

theorem hextetExploded_no_colon (n : Nat) : ∀ c ∈ hextetExploded n, c ≠ ':' := by
  intro c hc
  rw [hextetExploded] at hc
  simp only [List.mem_cons, List.not_mem_nil, or_false] at hc
  rcases hc with h | h | h | h <;>
    (rw [h]; exact hexDigitChar_ne_colon (Nat.mod_lt _ (by norm_num)))

theorem flatten_hextets_length (gs : List Nat) :
    ((gs.map hextetExploded).flatten).length = 4 * gs.length := by
  induction gs with
  | nil => rfl
  | cons g rest ih =>
    simp only [List.map_cons, List.flatten_cons, List.length_append, ih,
      List.length_cons]
    rw [show (hextetExploded g).length = 4 from rfl]
    omega

theorem explodedIPv6_filter (gs : List Nat) :
    (explodedIPv6 gs).filter (fun c => c ≠ ':') = (gs.map hextetExploded).flatten := by
  rw [explodedIPv6]
  apply filter_joinParts_ne
  intro p hp c hc
  rcases List.mem_map.mp hp with ⟨n, _, hn⟩
  rw [← hn] at hc
  exact hextetExploded_no_colon n c hc

/-- C3: `to_reverse` maps a dotted-quad IPv4 string to (last octet, the other
octets reversed and dot-joined with the `in-addr.arpa` suffix); maps an IPv6
string to (last nibble of the exploded 32-digit form, the other 31 nibbles
reversed and dot-joined with the `ip6.arpa` suffix); and fails with a parse
error on anything that is neither. -/
theorem C3_to_reverse :
    (∀ (s : String) (octs : List (List Char)), parseIPv4 s = some octs →
      ∃ o1 o2 o3 o4 : String,
        octs = [o1.data, o2.data, o3.data, o4.data] ∧
        s = o1 ++ "." ++ o2 ++ "." ++ o3 ++ "." ++ o4 ∧
        strictOctet o1.data = true ∧ strictOctet o2.data = true ∧
        strictOctet o3.data = true ∧ strictOctet o4.data = true ∧
        to_reverse s = Except.ok (o4, o3 ++ "." ++ o2 ++ "." ++ o1 ++ ".in-addr.arpa")) ∧
    (∀ (s : String) (gs : List Nat), parseIPv6 s = some gs →
      ((explodedIPv6 gs).filter (fun c => c ≠ ':')).length = 32 ∧
      to_reverse s = Except.ok
        (String.mk [((explodedIPv6 gs).filter (fun c => c ≠ ':')).getLastD ' '],
         joinWith "." (((((explodedIPv6 gs).filter (fun c => c ≠ ':')).dropLast.reverse).map
           (fun c => String.mk [c])) ++ ["ip6.arpa"]))) ∧
    (∀ s : String, parseIPv4 s = none → parseIPv6 s = none →
      to_reverse s = Except.error (s ++ " does not appear to be an IPv4 or IPv6 address")) := by
  refine ⟨?_, ?_, ?_⟩
  · intro s octs h
    obtain ⟨hsplit, hlen, hall⟩ := parseIPv4_parts h
    match octs, hlen with
    | [p1, p2, p3, p4], _ =>
      refine ⟨String.mk p1, String.mk p2, String.mk p3, String.mk p4, rfl, ?_, ?_, ?_, ?_, ?_, ?_⟩
      · apply String.ext
        have hjoin := joinParts_pySplitChar '.' s.data
        rw [hsplit] at hjoin
        simp only [joinParts] at hjoin
        simp only [String.data_append]
        rw [← hjoin]
        simp
      · exact hall _ (by simp)
      · exact hall _ (by simp)
      · exact hall _ (by simp)
      · exact hall _ (by simp)
      · rw [to_reverse, _reverse_ip, h]
        simp only [List.reverse_cons, List.reverse_nil, List.nil_append,
          List.cons_append, List.map_cons, List.map_nil]
        congr 1
        congr 1
        apply String.ext
        simp only [joinWith, String.data_append]
        simp
  · intro s gs h
    have h4 : parseIPv4 s = none := by
      cases hp : parseIPv4 s with
      | none => rfl
      | some octs =>
        rw [parseIPv4_no_ipv6 hp] at h
        exact absurd h (by simp)
    have hlen8 : gs.length = 8 := parseIPv6_length h
    have hflen : ((explodedIPv6 gs).filter (fun c => c ≠ ':')).length = 32 := by
      rw [explodedIPv6_filter, flatten_hextets_length, hlen8]
    refine ⟨hflen, ?_⟩
    rw [to_reverse, _reverse_ip, h4, h]
    dsimp only []
    rw [List.filter_reverse]
    set ds := (explodedIPv6 gs).filter (fun c => c ≠ ':') with hds
    have hne : ds ≠ [] := by
      intro hc
      rw [hc] at hflen
      simp at hflen
    have hrev : ds.reverse = ds.getLast hne :: ds.dropLast.reverse := by
      conv_lhs => rw [← List.dropLast_concat_getLast hne]
      rw [List.reverse_append]
      rfl
    rw [hrev]
    have hlastD : ds.getLastD ' ' = ds.getLast hne := by
      rw [List.getLastD_eq_getLast?, List.getLast?_eq_getLast ds hne]
      rfl
    rw [hlastD]
  · intro s h4 h6
    rw [to_reverse, _reverse_ip, h4, h6]

/-- C4 (amended): `reverse_pointer` joins the two components of `to_reverse`
with a dot; in particular `reverse_pointer("192.168.1.2")` is
`"2.1.168.192.in-addr.arpa"` (the source docstring's extra `1.` octet does
not occur: a reversed IPv4 address has four octets). -/
theorem C4_reverse_pointer :
    (∀ (s a b : String), to_reverse s = Except.ok (a, b) →
      reverse_pointer s = Except.ok (a ++ "." ++ b)) ∧
    reverse_pointer "192.168.1.2" = Except.ok "2.1.168.192.in-addr.arpa" := by
  constructor
  · intro s a b h
    rw [to_reverse] at h
    rw [reverse_pointer, h]
  · rfl

/-- C4 counterexample: the claim's concrete example value
`"2.1.1.168.192.in-addr.arpa"` is not what the code computes for
`"192.168.1.2"`; the code yields `"2.1.168.192.in-addr.arpa"`. -/
theorem C4_counterexample :
    reverse_pointer "192.168.1.2" = Except.ok "2.1.168.192.in-addr.arpa" ∧
    ("2.1.168.192.in-addr.arpa" : String) ≠ "2.1.1.168.192.in-addr.arpa" :=
  ⟨rfl, by decide⟩

theorem C4_reverse_pointer_witness :
    reverse_pointer "10.1.2.3" = Except.ok ("3" ++ "." ++ "2.1.10.in-addr.arpa") :=
  C4_reverse_pointer.1 "10.1.2.3" "3" "2.1.10.in-addr.arpa" rfl

theorem C3_to_reverse_witness :
    to_reverse "192.168.1.2" =
      Except.ok ("2", "1" ++ "." ++ "168" ++ "." ++ "192" ++ ".in-addr.arpa") := by
  have h := C3_to_reverse.1 "192.168.1.2" ["192".data, "168".data, "1".data, "2".data] rfl
  obtain ⟨o1, o2, o3, o4, hocts, hs, _, _, _, _, hrev⟩ := h
  have ho1 : o1 = "192" := by
    apply String.ext
    have := congrArg (fun l => l.headD []) hocts
    simpa using this.symm
  have ho2 : o2 = "168" := by
    apply String.ext
    have := congrArg (fun l => (l.drop 1).headD []) hocts
    simpa using this.symm
  have ho3 : o3 = "1" := by
    apply String.ext
    have := congrArg (fun l => (l.drop 2).headD []) hocts
    simpa using this.symm
  have ho4 : o4 = "2" := by
    apply String.ext
    have := congrArg (fun l => (l.drop 3).headD []) hocts
    simpa using this.symm
  rw [ho1, ho2, ho3, ho4] at hrev
  exact hrev

/-! ### C5: the language of `validate_domain_name` -/

theorem flatten_map_singleton (x : List Char) :
    (x.map (fun c => [c])).flatten = x := by
  induction x with
  | nil => rfl
  | cons c rest ih => simp [ih]

theorem charClass_matches {cs : List Char} {x : List Char} :
    x ∈ (charClass cs).matches' ↔ ∃ c ∈ cs, x = [c] := by
  induction cs with
  | nil =>
    rw [charClass]
    simp [RegularExpression.matches'_zero]
  | cons c rest ih =>
    rw [charClass]
    simp only [List.foldr_cons]
    rw [RegularExpression.matches'_add]
    rw [Language.mem_add]
    rw [RegularExpression.matches'_char]
    rw [charClass] at ih
    rw [ih]
    simp only [Set.mem_singleton_iff, List.mem_cons]
    constructor
    · rintro (rfl | ⟨d, hd, rfl⟩)
      · exact ⟨c, Or.inl rfl, rfl⟩
      · exact ⟨d, Or.inr hd, rfl⟩
    · rintro ⟨d, rfl | hd, rfl⟩
      · exact Or.inl rfl
      · exact Or.inr ⟨d, hd, rfl⟩

theorem star_charClass {cs : List Char} {x : List Char} :
    x ∈ ((charClass cs).star).matches' ↔ ∀ c ∈ x, c ∈ cs := by
  rw [RegularExpression.matches'_star, Language.mem_kstar]
  constructor
  · rintro ⟨L, rfl, hL⟩
    intro c hc
    rw [List.mem_flatten] at hc
    obtain ⟨y, hy, hcy⟩ := hc
    obtain ⟨d, hd, rfl⟩ := charClass_matches.mp (hL y hy)
    rw [List.mem_singleton] at hcy
    rw [hcy]
    exact hd
  · intro h
    refine ⟨x.map (fun c => [c]), (flatten_map_singleton x).symm, ?_⟩
    intro y hy
    obtain ⟨c, hc, rfl⟩ := List.mem_map.mp hy
    exact charClass_matches.mpr ⟨c, h c hc, rfl⟩

theorem plus_charClass {cs : List Char} {x : List Char} :
    x ∈ (plusRE (charClass cs)).matches' ↔ x ≠ [] ∧ ∀ c ∈ x, c ∈ cs := by
  rw [plusRE, RegularExpression.matches'_mul, Language.mem_mul]
  constructor
  · rintro ⟨a, ha, b, hb, rfl⟩
    obtain ⟨c, hc, rfl⟩ := charClass_matches.mp ha
    have hb2 := star_charClass.mp hb
    refine ⟨by simp, ?_⟩
    intro d hd
    rcases List.mem_append.mp hd with h1 | h1
    · rw [List.mem_singleton] at h1
      rw [h1]
      exact hc
    · exact hb2 d h1
  · rintro ⟨hne, hall⟩
    cases x with
    | nil => exact absurd rfl hne
    | cons c rest =>
      refine ⟨[c], charClass_matches.mpr ⟨c, hall c (by simp), rfl⟩, rest, ?_, rfl⟩
      exact star_charClass.mpr (fun d hd => hall d (by simp [hd]))

theorem labelSeg_matches {x : List Char} :
    x ∈ ((plusRE (charClass labelChars)) * RegularExpression.char '.').matches' ↔
      ∃ lab, lab ≠ [] ∧ (∀ c ∈ lab, c ∈ labelChars) ∧ x = lab ++ ['.'] := by
  rw [RegularExpression.matches'_mul, Language.mem_mul]
  constructor
  · rintro ⟨a, ha, b, hb, rfl⟩
    rw [RegularExpression.matches'_char, Set.mem_singleton_iff] at hb
    obtain ⟨hne, hall⟩ := plus_charClass.mp ha
    exact ⟨a, hne, hall, by rw [hb]⟩
  · rintro ⟨lab, hne, hall, rfl⟩
    exact ⟨lab, plus_charClass.mpr ⟨hne, hall⟩, ['.'],
      by rw [RegularExpression.matches'_char]; rfl, rfl⟩

theorem starSeg_extract : ∀ (L : List (List Char)),
    (∀ y ∈ L, ∃ lab, lab ≠ [] ∧ (∀ c ∈ lab, c ∈ labelChars) ∧ y = lab ++ ['.']) →
    ∃ labs : List (List Char), (∀ lab ∈ labs, lab ≠ [] ∧ ∀ c ∈ lab, c ∈ labelChars) ∧
      L = labs.map (fun lab => lab ++ ['.']) := by
  intro L
  induction L with
  | nil =>
    intro _
    exact ⟨[], fun lab hl => absurd hl (List.not_mem_nil lab), rfl⟩
  | cons y L2 ih =>
    intro h
    obtain ⟨lab, hne, hall, hy⟩ := h y (by simp)
    obtain ⟨labs, hlabs, hL2⟩ := ih (fun z hz => h z (by simp [hz]))
    refine ⟨lab :: labs, ?_, ?_⟩
    · intro l2 hl2
      rcases List.mem_cons.mp hl2 with rfl | hl3
      · exact ⟨hne, hall⟩
      · exact hlabs l2 hl3
    · rw [List.map_cons, ← hy, ← hL2]

theorem starSeg_matches {x : List Char} :
    x ∈ (((plusRE (charClass labelChars)) * RegularExpression.char '.').star).matches' ↔
      ∃ labs : List (List Char), (∀ lab ∈ labs, lab ≠ [] ∧ ∀ c ∈ lab, c ∈ labelChars) ∧
        x = (labs.map (fun lab => lab ++ ['.'])).flatten := by
  rw [RegularExpression.matches'_star, Language.mem_kstar]
  constructor
  · rintro ⟨L, rfl, hL⟩
    obtain ⟨labs, hlabs, rfl⟩ := starSeg_extract L (fun y hy => labelSeg_matches.mp (hL y hy))
    exact ⟨labs, hlabs, rfl⟩
  · rintro ⟨labs, hlabs, rfl⟩
    refine ⟨labs.map (fun lab => lab ++ ['.']), rfl, ?_⟩
    intro y hy
    obtain ⟨lab, hlab, rfl⟩ := List.mem_map.mp hy
    exact labelSeg_matches.mpr ⟨lab, (hlabs lab hlab).1, (hlabs lab hlab).2, rfl⟩

theorem opt_matches {x : List Char} :
    x ∈ ((1 : RegularExpression Char) +
      RegularExpression.char '*' * RegularExpression.char '.').matches' ↔
      x = [] ∨ x = ['*', '.'] := by
  rw [RegularExpression.matches'_add, Language.mem_add, RegularExpression.matches'_epsilon,
    Language.mem_one, RegularExpression.matches'_mul, Language.mem_mul]
  constructor
  · rintro (rfl | ⟨a, ha, b, hb, rfl⟩)
    · exact Or.inl rfl
    · rw [RegularExpression.matches'_char, Set.mem_singleton_iff] at ha hb
      rw [ha, hb]
      exact Or.inr rfl
  · rintro (rfl | rfl)
    · exact Or.inl rfl
    · refine Or.inr ⟨['*'], ?_, ['.'], ?_, rfl⟩
      · rw [RegularExpression.matches'_char]; rfl
      · rw [RegularExpression.matches'_char]; rfl

theorem rmatch_iff_grammar {l : List Char} :
    domainNameRE.rmatch l = true ↔ domainGrammar l := by
  rw [RegularExpression.rmatch_iff_matches', domainNameRE]
  rw [RegularExpression.matches'_mul, Language.mem_mul]
  constructor
  · rintro ⟨ab, hab, c, hc, rfl⟩
    rw [RegularExpression.matches'_mul, Language.mem_mul] at hab
    obtain ⟨a, ha, b, hb, rfl⟩ := hab
    obtain ⟨hcne, hcall⟩ := plus_charClass.mp hc
    obtain ⟨labs, hlabs, rfl⟩ := starSeg_matches.mp hb
    rcases opt_matches.mp ha with rfl | rfl
    · exact ⟨false, labs, c, hlabs, ⟨hcne, hcall⟩, by simp⟩
    · exact ⟨true, labs, c, hlabs, ⟨hcne, hcall⟩, by simp⟩
  · rintro ⟨w, labs, tl, hlabs, ⟨htlne, htl⟩, rfl⟩
    refine ⟨(if w then ['*', '.'] else []) ++
      (labs.map (fun lab => lab ++ ['.'])).flatten, ?_, tl,
      plus_charClass.mpr ⟨htlne, htl⟩, by simp⟩
    rw [RegularExpression.matches'_mul, Language.mem_mul]
    refine ⟨(if w then ['*', '.'] else []), ?_,
      (labs.map (fun lab => lab ++ ['.'])).flatten,
      starSeg_matches.mpr ⟨labs, hlabs, rfl⟩, rfl⟩
    apply opt_matches.mpr
    cases w
    · exact Or.inl rfl
    · exact Or.inr rfl

theorem validate_domain_name_iff (s : String) :
    validate_domain_name s = true ↔
      (domainGrammar s.data ∨ ∃ t, s.data = t ++ ['\n'] ∧ domainGrammar t) := by
  rw [validate_domain_name, reDollar, Bool.or_eq_true]
  constructor
  · rintro (h1 | h2)
    · exact Or.inl (rmatch_iff_grammar.mp h1)
    · by_cases hg : s.data.getLast? = some '\n'
      · rw [if_pos hg] at h2
        refine Or.inr ⟨s.data.dropLast, ?_, rmatch_iff_grammar.mp h2⟩
        exact (List.dropLast_append_getLast? '\n' hg).symm
      · rw [if_neg hg] at h2
        exact absurd h2 (by simp)
  · rintro (hg | ⟨t, ht, hg⟩)
    · exact Or.inl (rmatch_iff_grammar.mpr hg)
    · right
      have hlast : s.data.getLast? = some '\n' := by
        rw [ht]
        exact List.getLast?_concat _
      rw [if_pos hlast]
      have hdrop : s.data.dropLast = t := by
        rw [ht]
        exact List.dropLast_concat
      rw [hdrop]
      exact rmatch_iff_grammar.mpr hg

theorem domainGrammar_getLast {l : List Char} (h : domainGrammar l) :
    ∃ c, l.getLast? = some c ∧ c ∈ alnumChars := by
  obtain ⟨w, labs, tl, _, ⟨htlne, htl⟩, rfl⟩ := h
  have hlast : tl.getLast? = some (tl.getLast htlne) := List.getLast?_eq_getLast tl htlne
  refine ⟨tl.getLast htlne, ?_, htl _ (List.getLast_mem htlne)⟩
  rw [List.getLast?_append_of_ne_nil _ htlne]
  exact hlast

theorem domainGrammar_no_star {l : List Char} (h : domainGrammar l)
    (hhd : l.head? ≠ some '*') : '*' ∉ l := by
  obtain ⟨w, labs, tl, hlabs, ⟨htlne, htl⟩, rfl⟩ := h
  cases w with
  | true =>
    exact absurd rfl hhd
  | false =>
    simp only [if_neg Bool.false_ne_true, List.nil_append]
    intro hmem
    rcases List.mem_append.mp hmem with h1 | h1
    · rw [List.mem_flatten] at h1
      obtain ⟨seg, hseg, hstar⟩ := h1
      obtain ⟨lab, hlab, rfl⟩ := List.mem_map.mp hseg
      rcases List.mem_append.mp hstar with h2 | h2
      · have := (hlabs lab hlab).2 '*' h2
        exact absurd this (by decide)
      · rw [List.mem_singleton] at h2
        exact absurd h2 (by decide)
    · exact absurd (htl '*' h1) (by decide)

/-- C5 counterexample: Python `re`'s `$` also matches just before a trailing
newline, so the validator accepts `"example.com\n"`, which is not in the
claim's grammar (its last character is not alphanumeric). -/
theorem C5_counterexample :
    validate_domain_name "example.com\n" = true ∧
    ¬ domainGrammar "example.com\n".data := by
  constructor
  · apply (validate_domain_name_iff _).mpr
    refine Or.inr ⟨"example.com".data, by decide, ?_⟩
    exact ⟨false, ["example".data], "com".data, by decide, by decide, by decide⟩
  · intro h
    obtain ⟨c, hc, hcal⟩ := domainGrammar_getLast h
    have : c = '\n' := by
      have hl : ("example.com\n".data).getLast? = some '\n' := by decide
      rw [hl] at hc
      exact (Option.some.injEq _ _).mp hc.symm
    rw [this] at hcal
    exact absurd hcal (by decide)

/-- C5 (amended): the validator accepts `"example.com"` and
`"*.example.com"` and rejects `"example.com."` and `"ex*mple.com"`; in
general it accepts exactly the strings of the claimed grammar — an optional
leading `*.`, labels over `[_A-Za-z0-9-]` each ending in a dot, and a final
nonempty alphanumeric label — optionally followed by one trailing newline,
which Python `re`'s `$` tolerates. -/
theorem C5_validate_domain_name :
    validate_domain_name "example.com" = true ∧
    validate_domain_name "*.example.com" = true ∧
    validate_domain_name "example.com." = false ∧
    validate_domain_name "ex*mple.com" = false ∧
    (∀ s : String, validate_domain_name s = true ↔
      (domainGrammar s.data ∨ ∃ t, s.data = t ++ ['\n'] ∧ domainGrammar t)) := by
  refine ⟨?_, ?_, ?_, ?_, validate_domain_name_iff⟩
  · apply (validate_domain_name_iff _).mpr
    exact Or.inl ⟨false, ["example".data], "com".data, by decide, by decide, by decide⟩
  · apply (validate_domain_name_iff _).mpr
    exact Or.inl ⟨true, ["example".data], "com".data, by decide, by decide, by decide⟩
  · rw [← Bool.not_eq_true]
    intro h
    rcases (validate_domain_name_iff _).mp h with hg | ⟨t, ht, hg⟩
    · obtain ⟨c, hc, hcal⟩ := domainGrammar_getLast hg
      have hl : ("example.com.".data).getLast? = some '.' := by decide
      rw [hl] at hc
      have : c = '.' := (Option.some.injEq _ _).mp hc.symm
      rw [this] at hcal
      exact absurd hcal (by decide)
    · have h1 := congrArg List.getLast? ht
      rw [List.getLast?_concat] at h1
      have h2 : ("example.com.".data).getLast? = some '.' := by decide
      rw [h2] at h1
      exact absurd ((Option.some.injEq _ _).mp h1) (by decide)
  · rw [← Bool.not_eq_true]
    intro h
    rcases (validate_domain_name_iff _).mp h with hg | ⟨t, ht, hg⟩
    · have hhd : ("ex*mple.com".data).head? ≠ some '*' := by decide
      have := domainGrammar_no_star hg hhd
      exact this (by decide)
    · have h1 := congrArg List.getLast? ht
      rw [List.getLast?_concat] at h1
      have h2 : ("ex*mple.com".data).getLast? = some 'm' := by decide
      rw [h2] at h1
      exact absurd ((Option.some.injEq _ _).mp h1) (by decide)

end PowerDNS
